import Mathlib

/-!
Verification of the Grid Clash (GSync v2) UDP state-synchronization
programs: the server (`server.py`) and the pygame client
(`client_pygame.py`).  Bytes are modelled as natural numbers `< 256`,
byte strings as `List Nat`, and the CRC32 of `binascii.crc32` is
embedded bit by bit.
-/

set_option maxHeartbeats 1000000
set_option maxRecDepth 100000

namespace GridClash

/-! ## Big-endian byte packing (`struct.pack`/`unpack` with format `!`) -/

/-- Big-endian interpretation of a byte list as a natural number
(`struct.unpack` of `!`-formatted fields). -/
def unpackBE (l : List Nat) : Nat := l.foldl (fun a b => 256 * a + b) 0

/-- Big-endian encoding of `n` into exactly `k` bytes
(`struct.pack` of `!`-formatted fields). -/
def be : Nat → Nat → List Nat
  | 0, _ => []
  | k + 1, n => n / 256 ^ k % 256 :: be k n

/-! ## CRC32 (`binascii.crc32`, reflected polynomial 0xEDB88320) -/

/-- The reflected CRC-32 generator polynomial used by `binascii.crc32`. -/
def CRC_POLY : Nat := 0xEDB88320

/-- One bit-round of the CRC update loop. -/
def crcRound (c : Nat) : Nat := (c / 2) ^^^ (if c % 2 = 1 then CRC_POLY else 0)

/-- CRC update for one input byte: xor the byte in, then eight bit-rounds. -/
def crcByte (c b : Nat) : Nat := crcRound^[8] (c ^^^ b)

/-- `binascii.crc32` over a byte string, with initial and final value
0xFFFFFFFF as in the zlib CRC. -/
def crc32 (data : List Nat) : Nat := (data.foldl crcByte 0xFFFFFFFF) ^^^ 0xFFFFFFFF

/-! ## Protocol constants and the 28-byte header -/

/-- `PROTO_ID = b"GSYN"`. -/
def PROTO_ID : List Nat := [71, 83, 89, 78]

namespace Server

/-- `VERSION = 2` in `server.py`. -/
def VERSION : Nat := 2

end Server

namespace Client

/-- `VERSION = 1` in `client_pygame.py`. -/
def VERSION : Nat := 1

end Client

def MSG_SNAPSHOT : Nat := 0

def MSG_EVENT : Nat := 1

def MSG_INIT : Nat := 3

def MSG_GAME_OVER : Nat := 4

/-- `GRID_N = 10`: the grid is 10×10 = 100 cells. -/
def GRID_N : Nat := 10

/-- The eight fields of `HEADER_STRUCT = struct.Struct("!4s B B I I Q H I")`. -/
structure Header where
  protoId : List Nat
  version : Nat
  msgType : Nat
  snapshotId : Nat
  seqNum : Nat
  serverTs : Nat
  payloadLen : Nat
  checksum : Nat
deriving Repr, DecidableEq

/-- `HEADER_STRUCT.pack`: the 28-byte big-endian header image. -/
def packHeader (h : Header) : List Nat :=
  h.protoId ++ be 1 h.version ++ be 1 h.msgType ++ be 4 h.snapshotId ++
    be 4 h.seqNum ++ be 8 h.serverTs ++ be 2 h.payloadLen ++ be 4 h.checksum

/-- `HEADER_STRUCT.unpack` applied to the first 28 bytes of a datagram. -/
def parseHeader (data : List Nat) : Header where
  protoId := data.take 4
  version := unpackBE ((data.drop 4).take 1)
  msgType := unpackBE ((data.drop 5).take 1)
  snapshotId := unpackBE ((data.drop 6).take 4)
  seqNum := unpackBE ((data.drop 10).take 4)
  serverTs := unpackBE ((data.drop 14).take 8)
  payloadLen := unpackBE ((data.drop 22).take 2)
  checksum := unpackBE ((data.drop 24).take 4)

/-- The packet-validation prefix of `recv_loop` (identical in `server.py`
lines 104–127 and `client_pygame.py` lines 164–186): drop short datagrams,
parse the header, drop on protocol-tag or version mismatch, extract the
payload by the declared length, recompute CRC32 over the checksum-zeroed
header plus payload, and drop on checksum mismatch. -/
def decodePacket (expVersion : Nat) (data : List Nat) : Option (Header × List Nat) :=
  if data.length < 28 then none
  else if (parseHeader data).protoId ≠ PROTO_ID ∨
      (parseHeader data).version ≠ expVersion then none
  else if crc32 (packHeader { parseHeader data with checksum := 0 } ++
      (data.drop 28).take (parseHeader data).payloadLen) ≠
      (parseHeader data).checksum then none
  else some (parseHeader data, (data.drop 28).take (parseHeader data).payloadLen)

/-- The packet-construction pattern of `send_init`, `send_event_acquire` and
`broadcast_loop`: pack the header with the checksum field zero, CRC32 the
zeroed header concatenated with the payload, and re-emit the header with the
checksum filled in. -/
def encodePacket (version msgType snapshotId seqNum serverTs : Nat)
    (payload : List Nat) : List Nat :=
  packHeader ⟨PROTO_ID, version, msgType, snapshotId, seqNum, serverTs,
    payload.length,
    crc32 (packHeader ⟨PROTO_ID, version, msgType, snapshotId, seqNum, serverTs,
      payload.length, 0⟩ ++ payload)⟩ ++ payload

/-- The checksummed image: header with checksum field zero, then payload. -/
def zeroMsg (v mt sid sq ts : Nat) (p : List Nat) : List Nat :=
  PROTO_ID ++ (be 1 v ++ (be 1 mt ++ (be 4 sid ++ (be 4 sq ++ (be 8 ts ++
    (be 2 p.length ++ (be 4 0 ++ p)))))))

/-- A full packet: header with checksum `ck`, then payload. -/
def fullPkt (v mt sid sq ts ck : Nat) (p : List Nat) : List Nat :=
  PROTO_ID ++ (be 1 v ++ (be 1 mt ++ (be 4 sid ++ (be 4 sq ++ (be 8 ts ++
    (be 2 p.length ++ (be 4 ck ++ p)))))))

/-! ## Server game state (`server.py`) -/

/-- The EVENT-handling core (`server.py` lines 144–148): under the lock, if
the cell id is in range and the cell unclaimed, the cell's owner becomes the
requesting player id and the request is accepted (`accepted = 1`); otherwise
it is rejected (`accepted = 0`).  Returns the new grid and the flag that is
written to the event log. -/
def handleEvent (grid : List Nat) (playerId cellId : Nat) : List Nat × Nat :=
  if cellId < GRID_N * GRID_N ∧ grid.getD cellId 0 = 0 then
    (grid.set cellId playerId, 1)
  else (grid, 0)

/-- Processing a sequence of EVENT requests in arrival order. -/
def processEvents (grid : List Nat) (reqs : List (Nat × Nat)) : List Nat :=
  reqs.foldl (fun g r => (handleEvent g r.1 r.2).1) grid

/-- The per-player tally accumulator: one step of
`scores[owner] = scores.get(owner, 0) + 1`, keeping dict insertion order. -/
def bump : List (Nat × Nat) → Nat → List (Nat × Nat)
  | [], q => [(q, 1)]
  | (r, n) :: t, q => if r = q then (r, n + 1) :: t else (r, n) :: bump t q

/-- The `scores` dict of `compute_game_over_payload`, as an insertion-ordered
association list. -/
def scoresOf (grid : List Nat) : List (Nat × Nat) :=
  grid.foldl (fun s owner => if owner ≠ 0 then bump s owner else s) []

/-- `max(scores, key=scores.get)`: the first key attaining the maximal value,
in insertion order. -/
def maxKey : List (Nat × Nat) → Nat
  | [] => 0
  | x :: t => (t.foldl (fun u y => if y.2 > u.2 then y else u) x).1

/-- First-occurrence lookup in an association list (`scores[pid]`). -/
def lookupD (s : List (Nat × Nat)) (q : Nat) : Nat :=
  ((s.find? (fun x => x.1 == q)).map Prod.snd).getD 0

/-- `compute_game_over_payload` (`server.py` lines 165–187): the game is over
when no cell is unclaimed; the winner is the player with the most cells; the
payload is winner id, player count, then `(pid, count)` pairs for `pid` in
`sorted(scores)`. -/
def compute_game_over_payload (grid : List Nat) : Bool × List Nat :=
  if 0 ∈ grid then (false, [])
  else
    (true, maxKey (scoresOf grid) :: (scoresOf grid).length ::
      (List.insertionSort (fun a c => a ≤ c) ((scoresOf grid).map Prod.fst)).flatMap
        (fun q => [q, lookupD (scoresOf grid) q]))

/-- `build_snapshot_payload`: the dimension byte followed by the 100 cells. -/
def build_snapshot_payload (grid : List Nat) : List Nat := GRID_N :: grid

/-- One `appendleft` into the `deque(maxlen=3)` snapshot history. -/
def pushSnapshot (hist : List (List Nat)) (payl : List Nat) : List (List Nat) :=
  (payl :: hist).take 3

/-- The snapshot history after `t` broadcast ticks, the `(u+1)`-th tick
pushing payload `snaps u`. -/
def historyAfter (snaps : Nat → List Nat) : Nat → List (List Nat)
  | 0 => []
  | t + 1 => pushSnapshot (historyAfter snaps t) (snaps t)

/-- Server state touched by `recv_loop`: the registered endpoints and the
authoritative grid. -/
structure ServerState where
  clients : List Nat
  grid : List Nat
deriving Repr, DecidableEq

/-- One validated-datagram dispatch of the server `recv_loop` body
(`server.py` lines 104–155): decode with the server's `VERSION`; on INIT
register the endpoint; on an EVENT with a 12-byte payload parse
`!B B H Q` and run the claim resolution. -/
def recvStep (st : ServerState) (src : Nat) (data : List Nat) : ServerState :=
  match decodePacket Server.VERSION data with
  | none => st
  | some (h, payload) =>
    if h.msgType = MSG_INIT then
      { st with clients := if src ∈ st.clients then st.clients else src :: st.clients }
    else if h.msgType = MSG_EVENT ∧ 12 ≤ payload.length then
      { st with grid :=
          (handleEvent st.grid (payload.getD 0 0)
            (unpackBE ((payload.drop 2).take 2))).1 }
    else st

/-! ## Client state (`client_pygame.py`) -/

/-- The sequence-tracking fields of the client's `metrics` dict. -/
structure Metrics where
  totalPackets : Nat
  duplicates : Nat
  lost : Nat
  lastSeq : Int
deriving Repr, DecidableEq

/-- `metrics` at client start: counters zero, `last_seq_num = -1`. -/
def initMetrics : Metrics := ⟨0, 0, 0, -1⟩

/-- The sequence-accounting portion of `handle_snapshot`
(`client_pygame.py` lines 221–231): count the packet; a sequence number
`≤ last_seq_num` is a duplicate; a jump past `last_seq_num + 1` adds the gap
to `lost_sequences`; then `last_seq_num` is set to the new number. -/
def updateSeqMetrics (m : Metrics) (seq : Nat) : Metrics :=
  let m1 : Metrics := { m with totalPackets := m.totalPackets + 1 }
  let m2 : Metrics := if (seq : Int) ≤ m1.lastSeq then
      { m1 with duplicates := m1.duplicates + 1 } else m1
  let m3 : Metrics := if m2.lastSeq ≠ -1 ∧ m2.lastSeq + 1 < (seq : Int) then
      { m2 with lost := m2.lost + ((seq : Int) - m2.lastSeq - 1).toNat } else m2
  { m3 with lastSeq := (seq : Int) }

/-- Feeding a list of sequence numbers to the reconciliation cursor. -/
def processSeqs (m : Metrics) (seqs : List Nat) : Metrics :=
  seqs.foldl updateSeqMetrics m

/-- The K-redundancy payload parser of `handle_snapshot` (lines 233–257):
repeatedly read a dimension byte; stop on a wrong dimension or a truncated
chunk; otherwise take the 100-cell chunk and continue. -/
def parseChunks (payload : List Nat) : List (List Nat) :=
  if h : GRID_N * GRID_N + 1 ≤ payload.length ∧ payload.getD 0 0 = GRID_N then
    (payload.drop 1).take (GRID_N * GRID_N) ::
      parseChunks (payload.drop (GRID_N * GRID_N + 1))
  else []
termination_by payload.length
decreasing_by
  simp only [List.length_drop]
  omega

/-- Grid application in `handle_snapshot`: only the first (newest) chunk is
applied to the local grid; every further chunk only increments
`redundancy_used`.  Returns the new grid and `redundancy_used`. -/
def applySnapshot (grid : List Nat) (payload : List Nat) : List Nat × Nat :=
  match parseChunks payload with
  | [] => (grid, 0)
  | c :: rest => (c, rest.length)

/-- Overwriting insert for the client's `scores` dict in `handle_game_over`. -/
def setPair : List (Nat × Nat) → Nat → Nat → List (Nat × Nat)
  | [], q, n => [(q, n)]
  | (r, k) :: t, q, n => if r = q then (r, n) :: t else (r, k) :: setPair t q n

/-- Client state touched by its `recv_loop`. -/
structure ClientState where
  grid : List Nat
  metrics : Metrics
  gameOver : Bool
  winnerId : Nat
  finalScores : List (Nat × Nat)
deriving Repr, DecidableEq

/-- `handle_game_over` (`client_pygame.py` lines 266–287): ignore payloads
shorter than 2 bytes; otherwise record the winner and parse
`num_players` score pairs, skipping a truncated final pair. -/
def handle_game_over (st : ClientState) (payload : List Nat) : ClientState :=
  if payload.length < 2 then st
  else
    { st with
      gameOver := true,
      winnerId := payload.getD 0 0,
      finalScores := (List.range (payload.getD 1 0)).foldl
        (fun s i =>
          if 2 + i * 2 + 2 ≤ payload.length then
            setPair s (payload.getD (2 + i * 2) 0) (payload.getD (2 + i * 2 + 1) 0)
          else s) [] }

/-- `handle_snapshot` state change: sequence accounting then atomic grid
application of the newest embedded chunk. -/
def handle_snapshot (st : ClientState) (payload : List Nat) (seq : Nat) :
    ClientState :=
  { st with
    metrics := updateSeqMetrics st.metrics seq,
    grid := (applySnapshot st.grid payload).1 }

/-- One validated-datagram dispatch of the client `recv_loop` body
(lines 160–199): decode with the client's `VERSION`, then route SNAPSHOT
and GAME_OVER messages. -/
def clientRecvStep (st : ClientState) (data : List Nat) : ClientState :=
  match decodePacket Client.VERSION data with
  | none => st
  | some (h, payload) =>
    if h.msgType = MSG_SNAPSHOT then handle_snapshot st payload h.seqNum
    else if h.msgType = MSG_GAME_OVER then handle_game_over st payload
    else st

namespace Client

/-- `send_init` (`client_pygame.py` lines 119–133): a 1-byte payload holding
the player id, in a packet stamped with the client's `VERSION`. -/
def send_init_packet (playerId ts : Nat) : List Nat :=
  encodePacket VERSION MSG_INIT 0 0 ts [playerId]

/-- `send_event_acquire` (lines 135–158): payload `!B B H Q` = player id,
event type 0, cell id, client timestamp. -/
def send_event_packet (playerId cellId ts : Nat) : List Nat :=
  encodePacket VERSION MSG_EVENT 0 0 ts
    ([playerId] ++ ([0] ++ (be 2 cellId ++ be 8 ts)))

end Client

/-! ## Activity loops and the `try/except` boundaries -/

/-- One transport event seen by a receive activity: a datagram from some
endpoint, or a transport-level fault (the receive call raising). -/
inductive NetEvent where
  | pkt (src : Nat) (data : List Nat)
  | fault (msg : String)
deriving Repr, DecidableEq

/-- The body of one server `recv_loop` iteration, before the surrounding
`try/except`: a fault propagates as an exception, a datagram is processed. -/
def serverRecvBody (st : ServerState) (e : NetEvent) : Except String ServerState :=
  match e with
  | .fault m => .error m
  | .pkt src data => .ok (recvStep st src data)

/-- The `try/except Exception` at the boundary of the server `recv_loop`
body (`server.py` lines 102–159): an exception is logged, the state is
unchanged, and the loop continues. -/
def serverRecvLoopStep (st : ServerState) (e : NetEvent) : ServerState :=
  match serverRecvBody st e with
  | .ok st' => st'
  | .error _ => st

/-- The server receive activity over a stream of events. -/
def serverRecvLoop (st : ServerState) (es : List NetEvent) : ServerState :=
  es.foldl serverRecvLoopStep st

/-- The body of one client `recv_loop` iteration, before its `try/except`. -/
def clientRecvBody (st : ClientState) (e : NetEvent) : Except String ClientState :=
  match e with
  | .fault m => .error m
  | .pkt _ data => .ok (clientRecvStep st data)

/-- The `try/except Exception` at the boundary of the client `recv_loop`
body (`client_pygame.py` lines 162–199). -/
def clientRecvLoopStep (st : ClientState) (e : NetEvent) : ClientState :=
  match clientRecvBody st e with
  | .ok st' => st'
  | .error _ => st

/-- The client receive activity over a stream of events. -/
def clientRecvLoop (st : ClientState) (es : List NetEvent) : ClientState :=
  es.foldl clientRecvLoopStep st

/-- The per-endpoint `try/except` around `sendto` in `broadcast_loop`
(`server.py` lines 234–238): a failing endpoint is logged and skipped, the
remaining endpoints are still sent to.  Returns the endpoints actually
reached, in order. -/
def sendToAll (clients : List Nat) (fails : Nat → Bool) : List Nat :=
  clients.filter (fun c => !fails c)

/-- Broadcast-thread state advanced once per tick
(`server.py` lines 193–254). -/
structure BcastState where
  snapshotId : Nat
  seqNum : Nat
  history : List (List Nat)
deriving Repr, DecidableEq

/-- One `broadcast_loop` tick: build the snapshot payload, push it into the
redundancy history, emit the combined packet to the given endpoints (some of
which may fail), and advance both counters by exactly one.  Returns the new
state and the endpoints reached. -/
def broadcastTick (st : BcastState) (grid : List Nat) (_ts : Nat)
    (clients : List Nat) (fails : Nat → Bool) : BcastState × List Nat :=
  ({ snapshotId := st.snapshotId + 1, seqNum := st.seqNum + 1,
     history := pushSnapshot st.history (build_snapshot_payload grid) },
   sendToAll clients fails)

/-- The broadcast activity over a list of ticks (grid, timestamp, endpoint
set and failure oracle per tick). -/
def broadcastLoop (st : BcastState)
    (ticks : List (List Nat × Nat × List Nat × (Nat → Bool))) : BcastState :=
  ticks.foldl (fun s tk => (broadcastTick s tk.1 tk.2.1 tk.2.2.1 tk.2.2.2).1) st

theorem be_length (k n : Nat) : (be k n).length = k := by
  induction k generalizing n with
  | zero => rfl
  | succ k ih => simp [be, ih]

theorem mem_be_lt {k n b : Nat} (h : b ∈ be k n) : b < 256 := by
  induction k generalizing n with
  | zero => simp [be] at h
  | succ k ih =>
    simp only [be, List.mem_cons] at h
    rcases h with h | h
    · exact h ▸ Nat.mod_lt _ (by norm_num)
    · exact ih h

theorem unpackBE_cons (b : Nat) (l : List Nat) :
    unpackBE (b :: l) = b * 256 ^ l.length + unpackBE l := by
  have key : ∀ (l : List Nat) (a : Nat),
      l.foldl (fun a b => 256 * a + b) a = a * 256 ^ l.length + unpackBE l := by
    intro l
    induction l with
    | nil => intro a; simp [unpackBE]
    | cons c t ih =>
      intro a
      simp only [List.foldl_cons, List.length_cons]
      rw [ih (256 * a + c), show unpackBE (c :: t) = c * 256 ^ t.length + unpackBE t by
        simpa [unpackBE] using ih c]
      ring
  simpa [unpackBE] using key l b

theorem unpackBE_lt {l : List Nat} (h : ∀ b ∈ l, b < 256) :
    unpackBE l < 256 ^ l.length := by
  induction l with
  | nil => simp [unpackBE]
  | cons b t ih =>
    rw [unpackBE_cons, List.length_cons, pow_succ]
    have hb : b < 256 := h b (by simp)
    have ht : unpackBE t < 256 ^ t.length := ih fun x hx => h x (by simp [hx])
    calc b * 256 ^ t.length + unpackBE t
        < b * 256 ^ t.length + 256 ^ t.length := by omega
      _ = (b + 1) * 256 ^ t.length := by ring
      _ ≤ 256 * 256 ^ t.length := by
          exact Nat.mul_le_mul_right _ (by omega)
      _ = 256 ^ t.length * 256 := by ring

theorem be_mod (k n : Nat) : be k (n % 256 ^ k) = be k n := by
  induction k generalizing n with
  | zero => rfl
  | succ k ih =>
    have h1 : n % 256 ^ (k + 1) / 256 ^ k % 256 = n / 256 ^ k % 256 := by
      rw [pow_succ, Nat.mod_mul_right_div_self, Nat.mod_mod_of_dvd _ (dvd_refl 256)]
    have h2 : be k (n % 256 ^ (k + 1)) = be k n := by
      rw [← ih (n % 256 ^ (k + 1)),
        Nat.mod_mod_of_dvd _ (pow_dvd_pow 256 (Nat.le_succ k)), ih]
    simp only [be, h1, h2]

theorem unpackBE_be_mod (k n : Nat) : unpackBE (be k n) = n % 256 ^ k := by
  induction k generalizing n with
  | zero => simp [be, unpackBE, Nat.mod_one]
  | succ k ih =>
    rw [be, unpackBE_cons, be_length, ih, pow_succ, Nat.mod_mul]
    ring

theorem unpackBE_be {k n : Nat} (h : n < 256 ^ k) : unpackBE (be k n) = n := by
  rw [unpackBE_be_mod, Nat.mod_eq_of_lt h]

theorem be_unpackBE {l : List Nat} {k : Nat} (hl : l.length = k)
    (hb : ∀ b ∈ l, b < 256) : be k (unpackBE l) = l := by
  induction l generalizing k with
  | nil => subst hl; rfl
  | cons b t ih =>
    subst hl
    have hblt : b < 256 := hb b (by simp)
    have htlt : ∀ x ∈ t, x < 256 := fun x hx => hb x (by simp [hx])
    have hu : unpackBE t < 256 ^ t.length := unpackBE_lt htlt
    rw [List.length_cons, be, unpackBE_cons]
    have hd : (b * 256 ^ t.length + unpackBE t) / 256 ^ t.length % 256 = b := by
      rw [Nat.add_comm, Nat.add_mul_div_right _ _ (Nat.pos_pow_of_pos _ (by norm_num)),
        Nat.div_eq_of_lt hu, Nat.zero_add, Nat.mod_eq_of_lt hblt]
    have ht : be t.length (b * 256 ^ t.length + unpackBE t) = t := by
      rw [← be_mod, Nat.add_comm, Nat.add_mul_mod_self_right, Nat.mod_eq_of_lt hu,
        ih rfl htlt]
    rw [hd, ht]

theorem unpackBE_inj {l1 l2 : List Nat} (h1 : ∀ b ∈ l1, b < 256)
    (h2 : ∀ b ∈ l2, b < 256) (hl : l1.length = l2.length)
    (h : unpackBE l1 = unpackBE l2) : l1 = l2 := by
  rw [← @be_unpackBE l1 l1.length rfl h1, h, hl, be_unpackBE rfl h2]

theorem xor_left_cancel {a b c : Nat} (h : a ^^^ b = a ^^^ c) : b = c := by
  have := congrArg (a ^^^ ·) h
  simpa [← Nat.xor_assoc] using this

theorem xor_right_cancel {a b c : Nat} (h : b ^^^ a = c ^^^ a) : b = c := by
  rw [Nat.xor_comm b a, Nat.xor_comm c a] at h
  exact xor_left_cancel h

theorem crcRound_lt {c : Nat} (h : c < 2 ^ 32) : crcRound c < 2 ^ 32 := by
  unfold crcRound
  apply Nat.xor_lt_two_pow (Nat.lt_of_le_of_lt (Nat.div_le_self c 2) h)
  split
  · norm_num [CRC_POLY]
  · exact Nat.pos_pow_of_pos 32 (by norm_num)

theorem crcRound_inj {c1 c2 : Nat} (h1 : c1 < 2 ^ 32) (h2 : c2 < 2 ^ 32)
    (h : crcRound c1 = crcRound c2) : c1 = c2 := by
  have half_lt : ∀ c : Nat, c < 2 ^ 32 → c / 2 < 2 ^ 31 := by
    intro c hc
    exact Nat.div_lt_of_lt_mul (by omega)
  have bit31 : ∀ c : Nat, c < 2 ^ 32 → (c / 2 ^^^ CRC_POLY).testBit 31 = true := by
    intro c hc
    rw [Nat.testBit_xor, Nat.testBit_eq_false_of_lt (half_lt c hc)]
    norm_num [CRC_POLY]
    decide
  have bit31' : ∀ c : Nat, c < 2 ^ 32 → (c / 2).testBit 31 = false := fun c hc =>
    Nat.testBit_eq_false_of_lt (half_lt c hc)
  unfold crcRound at h
  rcases Nat.mod_two_eq_zero_or_one c1 with p1 | p1 <;>
    rcases Nat.mod_two_eq_zero_or_one c2 with p2 | p2
  · simp only [p1, p2] at h
    norm_num at h
    omega
  · simp only [p1, p2] at h
    norm_num at h
    have := bit31 c2 h2
    rw [← h] at this
    rw [bit31' c1 h1] at this
    exact absurd this (by simp)
  · simp only [p1, p2] at h
    norm_num at h
    have := bit31 c1 h1
    rw [h] at this
    rw [bit31' c2 h2] at this
    exact absurd this (by simp)
  · simp only [p1, p2] at h
    norm_num at h
    omega

theorem crcRounds_lt {c : Nat} (n : Nat) (h : c < 2 ^ 32) : crcRound^[n] c < 2 ^ 32 := by
  induction n generalizing c with
  | zero => simpa using h
  | succ n ih =>
    rw [Function.iterate_succ_apply]
    exact ih (crcRound_lt h)

theorem crcRounds_inj {c1 c2 : Nat} (n : Nat) (h1 : c1 < 2 ^ 32) (h2 : c2 < 2 ^ 32)
    (h : crcRound^[n] c1 = crcRound^[n] c2) : c1 = c2 := by
  induction n generalizing c1 c2 with
  | zero => simpa using h
  | succ n ih =>
    rw [Function.iterate_succ_apply, Function.iterate_succ_apply] at h
    exact crcRound_inj h1 h2 (ih (crcRound_lt h1) (crcRound_lt h2) h)

theorem crcByte_lt {c b : Nat} (hc : c < 2 ^ 32) (hb : b < 256) : crcByte c b < 2 ^ 32 :=
  crcRounds_lt 8 (Nat.xor_lt_two_pow hc (by omega))

theorem crcByte_inj_state {c1 c2 b : Nat} (h1 : c1 < 2 ^ 32) (h2 : c2 < 2 ^ 32)
    (hb : b < 256) (h : crcByte c1 b = crcByte c2 b) : c1 = c2 := by
  have := crcRounds_inj 8 (Nat.xor_lt_two_pow h1 (by omega))
    (Nat.xor_lt_two_pow h2 (by omega)) h
  exact xor_right_cancel this

theorem crcByte_ne_byte {c b1 b2 : Nat} (hc : c < 2 ^ 32) (hb1 : b1 < 256)
    (hb2 : b2 < 256) (hne : b1 ≠ b2) : crcByte c b1 ≠ crcByte c b2 := by
  intro h
  have := crcRounds_inj 8 (Nat.xor_lt_two_pow hc (by omega))
    (Nat.xor_lt_two_pow hc (by omega)) h
  exact hne (xor_left_cancel this)

theorem crcFold_lt {l : List Nat} {c : Nat} (hc : c < 2 ^ 32)
    (hl : ∀ b ∈ l, b < 256) : l.foldl crcByte c < 2 ^ 32 := by
  induction l generalizing c with
  | nil => simpa using hc
  | cons b t ih =>
    rw [List.foldl_cons]
    exact ih (crcByte_lt hc (hl b (by simp))) fun x hx => hl x (by simp [hx])

theorem crcFold_inj {l : List Nat} {c1 c2 : Nat} (h1 : c1 < 2 ^ 32) (h2 : c2 < 2 ^ 32)
    (hl : ∀ b ∈ l, b < 256) (h : l.foldl crcByte c1 = l.foldl crcByte c2) : c1 = c2 := by
  induction l generalizing c1 c2 with
  | nil => simpa using h
  | cons b t ih =>
    rw [List.foldl_cons, List.foldl_cons] at h
    have hb : b < 256 := hl b (by simp)
    have := ih (crcByte_lt h1 hb) (crcByte_lt h2 hb) (fun x hx => hl x (by simp [hx])) h
    exact crcByte_inj_state h1 h2 hb this

theorem crc32_lt {l : List Nat} (hl : ∀ b ∈ l, b < 256) : crc32 l < 2 ^ 32 := by
  unfold crc32
  exact Nat.xor_lt_two_pow (crcFold_lt (by norm_num) hl) (by norm_num)

/-- Two byte strings that agree everywhere except at one position (where
they hold distinct bytes) have distinct CRC32 values. -/
theorem crc32_ne_single_diff {pre suf : List Nat} {b1 b2 : Nat}
    (hpre : ∀ b ∈ pre, b < 256) (hsuf : ∀ b ∈ suf, b < 256)
    (hb1 : b1 < 256) (hb2 : b2 < 256) (hne : b1 ≠ b2) :
    crc32 (pre ++ b1 :: suf) ≠ crc32 (pre ++ b2 :: suf) := by
  intro h
  unfold crc32 at h
  have h' := xor_right_cancel h
  rw [List.foldl_append, List.foldl_append, List.foldl_cons, List.foldl_cons] at h'
  have hs : pre.foldl crcByte 0xFFFFFFFF < 2 ^ 32 := crcFold_lt (by norm_num) hpre
  have := crcFold_inj (crcByte_lt hs hb1) (crcByte_lt hs hb2) hsuf h'
  exact crcByte_ne_byte hs hb1 hb2 hne this

/-! ## List surgery helpers -/

theorem list_eq_take_cons_drop {α : Type} [Inhabited α] {l : List α} {i : Nat}
    (h : i < l.length) : l = l.take i ++ l.getD i default :: l.drop (i + 1) := by
  conv_lhs => rw [← List.take_append_drop i l]
  rw [← List.getElem_cons_drop l i h]
  congr 1
  rw [List.getD_eq_getElem?_getD, List.getElem?_eq_getElem h]
  rfl

theorem set_eq_take_cons_drop {α : Type} {l : List α} {i : Nat} (b : α)
    (h : i < l.length) : l.set i b = l.take i ++ b :: l.drop (i + 1) := by
  induction l generalizing i with
  | nil => simp at h
  | cons a t ih =>
    cases i with
    | zero => rfl
    | succ i =>
      simp only [List.set_cons_succ, List.take_succ_cons, List.cons_append,
        List.drop_succ_cons]
      rw [ih (by simpa using h)]

/-- Replacing one byte of a byte string by a different byte changes its CRC32. -/
theorem crc32_ne_set {l : List Nat} {i b : Nat} (hl : ∀ x ∈ l, x < 256)
    (hi : i < l.length) (hb : b < 256) (hne : b ≠ l.getD i 0) :
    crc32 (l.set i b) ≠ crc32 l := by
  have hget : l.getD i 0 = l[i] := by
    rw [List.getD_eq_getElem?_getD, List.getElem?_eq_getElem hi]
    rfl
  have hmem : l.getD i 0 ∈ l := by
    rw [hget]
    exact List.getElem_mem hi
  have hdef : l.getD i (default : Nat) = l.getD i 0 := rfl
  rw [set_eq_take_cons_drop b hi]
  conv_rhs => rw [list_eq_take_cons_drop hi]
  rw [hdef]
  exact crc32_ne_single_diff (fun x hx => hl x (List.take_subset i l hx))
    (fun x hx => hl x (List.drop_subset (i + 1) l hx)) hb (hl _ hmem) hne

theorem getD_append_lt {α : Type} {l1 l2 : List α} {i : Nat} (d : α)
    (h : i < l1.length) : (l1 ++ l2).getD i d = l1.getD i d := by
  rw [List.getD_eq_getElem?_getD, List.getD_eq_getElem?_getD,
    List.getElem?_append_left h]

theorem getD_append_ge {α : Type} {l1 l2 : List α} {i : Nat} (d : α)
    (h : l1.length ≤ i) : (l1 ++ l2).getD i d = l2.getD (i - l1.length) d := by
  rw [List.getD_eq_getElem?_getD, List.getD_eq_getElem?_getD,
    List.getElem?_append_right h]

theorem packHeader_length (h : Header) (hp : h.protoId.length = 4) :
    (packHeader h).length = 28 := by
  simp [packHeader, be_length, hp]

theorem encodePacket_length (v mt sid sq ts : Nat) (payload : List Nat) :
    (encodePacket v mt sid sq ts payload).length = 28 + payload.length := by
  simp [encodePacket, packHeader, be_length, PROTO_ID]
  omega

/-- Parsing a datagram assembled from the eight header chunks and a payload
recovers exactly those chunks. -/
theorem parseHeader_concat (c1 c2 c3 c4 c5 c6 c7 c8 p : List Nat)
    (h1 : c1.length = 4) (h2 : c2.length = 1) (h3 : c3.length = 1)
    (h4 : c4.length = 4) (h5 : c5.length = 4) (h6 : c6.length = 8)
    (h7 : c7.length = 2) (h8 : c8.length = 4) :
    parseHeader (c1 ++ (c2 ++ (c3 ++ (c4 ++ (c5 ++ (c6 ++ (c7 ++ (c8 ++ p)))))))) =
      ⟨c1, unpackBE c2, unpackBE c3, unpackBE c4, unpackBE c5, unpackBE c6,
        unpackBE c7, unpackBE c8⟩ ∧
      (c1 ++ (c2 ++ (c3 ++ (c4 ++ (c5 ++ (c6 ++ (c7 ++ (c8 ++ p)))))))).drop 28 = p := by
  have d4 : (c1 ++ (c2 ++ (c3 ++ (c4 ++ (c5 ++ (c6 ++ (c7 ++ (c8 ++ p)))))))).drop 4 =
      c2 ++ (c3 ++ (c4 ++ (c5 ++ (c6 ++ (c7 ++ (c8 ++ p)))))) := List.drop_left' h1
  have d5 : (c1 ++ (c2 ++ (c3 ++ (c4 ++ (c5 ++ (c6 ++ (c7 ++ (c8 ++ p)))))))).drop 5 =
      c3 ++ (c4 ++ (c5 ++ (c6 ++ (c7 ++ (c8 ++ p))))) := by
    rw [show (5 : Nat) = 4 + 1 from rfl, ← List.drop_drop, d4]
    exact List.drop_left' h2
  have d6 : (c1 ++ (c2 ++ (c3 ++ (c4 ++ (c5 ++ (c6 ++ (c7 ++ (c8 ++ p)))))))).drop 6 =
      c4 ++ (c5 ++ (c6 ++ (c7 ++ (c8 ++ p)))) := by
    rw [show (6 : Nat) = 5 + 1 from rfl, ← List.drop_drop, d5]
    exact List.drop_left' h3
  have d10 : (c1 ++ (c2 ++ (c3 ++ (c4 ++ (c5 ++ (c6 ++ (c7 ++ (c8 ++ p)))))))).drop 10 =
      c5 ++ (c6 ++ (c7 ++ (c8 ++ p))) := by
    rw [show (10 : Nat) = 6 + 4 from rfl, ← List.drop_drop, d6]
    exact List.drop_left' h4
  have d14 : (c1 ++ (c2 ++ (c3 ++ (c4 ++ (c5 ++ (c6 ++ (c7 ++ (c8 ++ p)))))))).drop 14 =
      c6 ++ (c7 ++ (c8 ++ p)) := by
    rw [show (14 : Nat) = 10 + 4 from rfl, ← List.drop_drop, d10]
    exact List.drop_left' h5
  have d22 : (c1 ++ (c2 ++ (c3 ++ (c4 ++ (c5 ++ (c6 ++ (c7 ++ (c8 ++ p)))))))).drop 22 =
      c7 ++ (c8 ++ p) := by
    rw [show (22 : Nat) = 14 + 8 from rfl, ← List.drop_drop, d14]
    exact List.drop_left' h6
  have d24 : (c1 ++ (c2 ++ (c3 ++ (c4 ++ (c5 ++ (c6 ++ (c7 ++ (c8 ++ p)))))))).drop 24 =
      c8 ++ p := by
    rw [show (24 : Nat) = 22 + 2 from rfl, ← List.drop_drop, d22]
    exact List.drop_left' h7
  have d28 : (c1 ++ (c2 ++ (c3 ++ (c4 ++ (c5 ++ (c6 ++ (c7 ++ (c8 ++ p)))))))).drop 28 = p := by
    rw [show (28 : Nat) = 24 + 4 from rfl, ← List.drop_drop, d24]
    exact List.drop_left' h8
  refine ⟨?_, d28⟩
  simp only [parseHeader, d4, d5, d6, d10, d14, d22, d24, Header.mk.injEq]
  exact ⟨List.take_left' h1, by rw [List.take_left' h2], by rw [List.take_left' h3],
    by rw [List.take_left' h4], by rw [List.take_left' h5], by rw [List.take_left' h6],
    by rw [List.take_left' h7], by rw [List.take_left' h8]⟩

theorem encodePacket_eq_chunks (v mt sid sq ts : Nat) (payload : List Nat) :
    encodePacket v mt sid sq ts payload =
      PROTO_ID ++ (be 1 v ++ (be 1 mt ++ (be 4 sid ++ (be 4 sq ++ (be 8 ts ++
        (be 2 payload.length ++
          (be 4 (crc32 (packHeader ⟨PROTO_ID, v, mt, sid, sq, ts, payload.length, 0⟩ ++
            payload)) ++ payload))))))) := by
  simp [encodePacket, packHeader, List.append_assoc]

theorem packHeader_bytes_lt {h : Header} (hp : ∀ x ∈ h.protoId, x < 256) :
    ∀ x ∈ packHeader h, x < 256 := by
  intro x hx
  simp only [packHeader, List.mem_append] at hx
  rcases hx with ((((((hx | hx) | hx) | hx) | hx) | hx) | hx) | hx
  · exact hp x hx
  all_goals exact mem_be_lt hx

theorem PROTO_ID_bytes_lt : ∀ x ∈ PROTO_ID, x < 256 := by
  intro y hy
  simp only [PROTO_ID, List.mem_cons, List.not_mem_nil, or_false] at hy
  rcases hy with rfl | rfl | rfl | rfl <;> norm_num

theorem encodePacket_bytes_lt {v mt sid sq ts : Nat} {payload : List Nat}
    (hpb : ∀ x ∈ payload, x < 256) :
    ∀ x ∈ encodePacket v mt sid sq ts payload, x < 256 := by
  intro x hx
  simp only [encodePacket, List.mem_append] at hx
  rcases hx with hx | hx
  · exact packHeader_bytes_lt PROTO_ID_bytes_lt x hx
  · exact hpb x hx

/-- Encode-then-decode round trip: decoding a freshly encoded packet (with
fields in range for `HEADER_STRUCT`) succeeds and recovers every header
field and the payload unchanged. -/
theorem decode_encode (v mt sid sq ts : Nat) (payload : List Nat)
    (hv : v < 256) (hmt : mt < 256) (hsid : sid < 2 ^ 32) (hsq : sq < 2 ^ 32)
    (hts : ts < 2 ^ 64) (hpl : payload.length < 2 ^ 16)
    (hpb : ∀ x ∈ payload, x < 256) :
    decodePacket v (encodePacket v mt sid sq ts payload) =
      some (⟨PROTO_ID, v, mt, sid, sq, ts, payload.length,
        crc32 (packHeader ⟨PROTO_ID, v, mt, sid, sq, ts, payload.length, 0⟩ ++
          payload)⟩, payload) := by
  have e1 : (256 : Nat) ^ 1 = 256 := by norm_num
  have e2 : (256 : Nat) ^ 2 = 2 ^ 16 := by norm_num
  have e4 : (256 : Nat) ^ 4 = 2 ^ 32 := by norm_num
  have e8 : (256 : Nat) ^ 8 = 2 ^ 64 := by norm_num
  have hZ : ∀ x ∈ packHeader ⟨PROTO_ID, v, mt, sid, sq, ts, payload.length, 0⟩ ++
      payload, x < 256 := by
    intro x hx
    rcases List.mem_append.mp hx with hx | hx
    · exact packHeader_bytes_lt PROTO_ID_bytes_lt x hx
    · exact hpb x hx
  have hcrc_lt : crc32 (packHeader ⟨PROTO_ID, v, mt, sid, sq, ts, payload.length, 0⟩ ++
      payload) < 2 ^ 32 := crc32_lt hZ
  have hform := encodePacket_eq_chunks v mt sid sq ts payload
  have hcc := parseHeader_concat PROTO_ID (be 1 v) (be 1 mt) (be 4 sid) (be 4 sq)
    (be 8 ts) (be 2 payload.length)
    (be 4 (crc32 (packHeader ⟨PROTO_ID, v, mt, sid, sq, ts, payload.length, 0⟩ ++
      payload))) payload rfl (be_length 1 v) (be_length 1 mt)
    (be_length 4 sid) (be_length 4 sq) (be_length 8 ts) (be_length 2 payload.length)
    (be_length 4 _)
  have hlen := encodePacket_length v mt sid sq ts payload
  rw [hform] at hlen
  have uv : unpackBE (be 1 v) = v := unpackBE_be (e1 ▸ hv)
  have umt : unpackBE (be 1 mt) = mt := unpackBE_be (e1 ▸ hmt)
  have usid : unpackBE (be 4 sid) = sid := unpackBE_be (e4 ▸ hsid)
  have usq : unpackBE (be 4 sq) = sq := unpackBE_be (e4 ▸ hsq)
  have uts : unpackBE (be 8 ts) = ts := unpackBE_be (e8 ▸ hts)
  have upl : unpackBE (be 2 payload.length) = payload.length := unpackBE_be (e2 ▸ hpl)
  have uck : unpackBE (be 4 (crc32
      (packHeader ⟨PROTO_ID, v, mt, sid, sq, ts, payload.length, 0⟩ ++ payload))) =
      crc32 (packHeader ⟨PROTO_ID, v, mt, sid, sq, ts, payload.length, 0⟩ ++ payload) :=
    unpackBE_be (e4 ▸ hcrc_lt)
  rw [hform]
  rw [decodePacket.eq_def]
  rw [if_neg (by omega), hcc.1]
  simp only [uv, umt, usid, usq, uts, upl, uck, hcc.2]
  rw [if_neg (by simp), List.take_length, if_neg (by simp)]

theorem encodePacket_eq_fullPkt (v mt sid sq ts : Nat) (payload : List Nat) :
    encodePacket v mt sid sq ts payload =
      fullPkt v mt sid sq ts (crc32 (zeroMsg v mt sid sq ts payload)) payload := by
  have h : packHeader ⟨PROTO_ID, v, mt, sid, sq, ts, payload.length, 0⟩ ++ payload =
      zeroMsg v mt sid sq ts payload := by
    simp [packHeader, zeroMsg, List.append_assoc]
  rw [encodePacket_eq_chunks, h]
  rfl

theorem packHeader_append_chunks (pr : List Nat) (w x y z u f g : Nat) (p : List Nat) :
    packHeader ⟨pr, w, x, y, z, u, f, g⟩ ++ p =
      pr ++ (be 1 w ++ (be 1 x ++ (be 4 y ++ (be 4 z ++ (be 8 u ++
        (be 2 f ++ (be 4 g ++ p))))))) := by
  simp [packHeader, List.append_assoc]

theorem set_push {c rest : List Nat} {k i : Nat} (hc : c.length = k) (hk : k ≤ i)
    (b : Nat) : (c ++ rest).set i b = c ++ rest.set (i - k) b := by
  subst hc
  exact List.set_append_right _ _ hk

theorem set_stay {c rest : List Nat} {k i : Nat} (hc : c.length = k) (hk : i < k)
    (b : Nat) : (c ++ rest).set i b = c.set i b ++ rest := by
  subst hc
  exact List.set_append_left _ _ hk

theorem getD_push {c rest : List Nat} {k i : Nat} (hc : c.length = k) (hk : k ≤ i)
    (d : Nat) : (c ++ rest).getD i d = rest.getD (i - k) d := by
  subst hc
  exact getD_append_ge d hk

theorem getD_stay {c rest : List Nat} {k i : Nat} (hc : c.length = k) (hk : i < k)
    (d : Nat) : (c ++ rest).getD i d = c.getD i d := by
  subst hc
  exact getD_append_lt d hk

theorem set_ne_self {l : List Nat} {j b : Nat} (hj : j < l.length)
    (hne : b ≠ l.getD j 0) : l.set j b ≠ l := by
  intro h
  apply hne
  have hb' : (l.set j b).getD j 0 = b := by
    rw [List.getD_eq_getElem?_getD,
      List.getElem?_eq_getElem (by simpa using hj), List.getElem_set_self]
    rfl
  have := congrArg (fun t => List.getD t j 0) h
  simp only at this
  rw [hb'] at this
  exact this

theorem unpack_set_ne {l : List Nat} {j b : Nat} (hl : ∀ x ∈ l, x < 256)
    (hj : j < l.length) (hb : b < 256) (hne : b ≠ l.getD j 0) :
    unpackBE (l.set j b) ≠ unpackBE l := by
  intro h
  exact set_ne_self hj hne (unpackBE_inj
    (fun x hx => by
      rcases List.mem_or_eq_of_mem_set hx with hx' | hx'
      · exact hl x hx'
      · exact hx' ▸ hb)
    hl (by simp) h)

theorem zeroMsg_bytes_lt {v mt sid sq ts : Nat} {p : List Nat}
    (hpb : ∀ x ∈ p, x < 256) : ∀ x ∈ zeroMsg v mt sid sq ts p, x < 256 := by
  intro x hx
  simp only [zeroMsg, List.mem_append] at hx
  rcases hx with hx | hx | hx | hx | hx | hx | hx | hx | hx
  · exact PROTO_ID_bytes_lt x hx
  · exact mem_be_lt hx
  · exact mem_be_lt hx
  · exact mem_be_lt hx
  · exact mem_be_lt hx
  · exact mem_be_lt hx
  · exact mem_be_lt hx
  · exact mem_be_lt hx
  · exact hpb x hx

theorem zeroMsg_length (v mt sid sq ts : Nat) (p : List Nat) :
    (zeroMsg v mt sid sq ts p).length = 28 + p.length := by
  simp [zeroMsg, be_length, PROTO_ID]
  omega

theorem fullPkt_length (v mt sid sq ts ck : Nat) (p : List Nat) :
    (fullPkt v mt sid sq ts ck p).length = 28 + p.length := by
  simp [fullPkt, be_length, PROTO_ID]
  omega

theorem update_checksum_mk (pr : List Nat) (w x y z u f g : Nat) :
    { (⟨pr, w, x, y, z, u, f, g⟩ : Header) with checksum := 0 } =
      (⟨pr, w, x, y, z, u, f, 0⟩ : Header) := rfl

/-- Rejection of single-byte corruption, stated over the explicit packet
image: if any one byte outside the two payload-length bytes (offsets 22–23)
of a well-formed packet is replaced by a different byte, `decodePacket`
returns `none`. -/
theorem decode_flip_core (v mt sid sq ts ck : Nat) (p : List Nat)
    (hv : v < 256) (hmt : mt < 256) (hsid : sid < 2 ^ 32) (hsq : sq < 2 ^ 32)
    (hts : ts < 2 ^ 64) (hpl : p.length < 2 ^ 16) (hpb : ∀ x ∈ p, x < 256)
    (hck_lt : ck < 2 ^ 32) (hck : ck = crc32 (zeroMsg v mt sid sq ts p))
    (i b : Nat) (hi : i < 28 + p.length) (hnot : i < 22 ∨ 24 ≤ i) (hb : b < 256)
    (hne : b ≠ (fullPkt v mt sid sq ts ck p).getD i 0) :
    decodePacket v ((fullPkt v mt sid sq ts ck p).set i b) = none := by
  have e1 : (256 : Nat) ^ 1 = 256 := by norm_num
  have e2 : (256 : Nat) ^ 2 = 2 ^ 16 := by norm_num
  have e4 : (256 : Nat) ^ 4 = 2 ^ 32 := by norm_num
  have e8 : (256 : Nat) ^ 8 = 2 ^ 64 := by norm_num
  have uv : unpackBE (be 1 v) = v := unpackBE_be (e1 ▸ hv)
  have umt : unpackBE (be 1 mt) = mt := unpackBE_be (e1 ▸ hmt)
  have usid : unpackBE (be 4 sid) = sid := unpackBE_be (e4 ▸ hsid)
  have usq : unpackBE (be 4 sq) = sq := unpackBE_be (e4 ▸ hsq)
  have uts : unpackBE (be 8 ts) = ts := unpackBE_be (e8 ▸ hts)
  have upl : unpackBE (be 2 p.length) = p.length := unpackBE_be (e2 ▸ hpl)
  have uck : unpackBE (be 4 ck) = ck := unpackBE_be (e4 ▸ hck_lt)
  have hdlen : (fullPkt v mt sid sq ts ck p).length = 28 + p.length :=
    fullPkt_length v mt sid sq ts ck p
  have hZb : ∀ x ∈ zeroMsg v mt sid sq ts p, x < 256 := zeroMsg_bytes_lt hpb
  have hZl : (zeroMsg v mt sid sq ts p).length = 28 + p.length :=
    zeroMsg_length v mt sid sq ts p
  rcases Nat.lt_or_ge i 4 with h4 | h4
  · -- flip inside the protocol tag: the tag check fails
    have hps : (fullPkt v mt sid sq ts ck p).set i b =
        (PROTO_ID.set i b) ++ (be 1 v ++ (be 1 mt ++ (be 4 sid ++ (be 4 sq ++
          (be 8 ts ++ (be 2 p.length ++ (be 4 ck ++ p))))))) := by
      simp only [fullPkt]
      rw [set_stay (show PROTO_ID.length = 4 from rfl) h4]
    have hgd : (fullPkt v mt sid sq ts ck p).getD i 0 = PROTO_ID.getD i 0 := by
      simp only [fullPkt]
      rw [getD_stay (show PROTO_ID.length = 4 from rfl) h4]
    have hpp := parseHeader_concat (PROTO_ID.set i b) (be 1 v) (be 1 mt) (be 4 sid)
      (be 4 sq) (be 8 ts) (be 2 p.length) (be 4 ck) p (by simp [PROTO_ID]) (be_length 1 v)
      (be_length 1 mt) (be_length 4 sid) (be_length 4 sq) (be_length 8 ts)
      (be_length 2 p.length) (be_length 4 ck)
    rw [decodePacket.eq_def, if_neg (by rw [List.length_set, hdlen]; omega), hps,
      hpp.1, if_pos (Or.inl (set_ne_self (by rw [show PROTO_ID.length = 4 from rfl]; omega) (hgd ▸ hne)))]
  rcases Nat.lt_or_ge i 5 with h5 | h5
  · -- flip of the version byte: the version check fails
    have hps : (fullPkt v mt sid sq ts ck p).set i b =
        PROTO_ID ++ ((be 1 v).set (i - 4) b ++ (be 1 mt ++ (be 4 sid ++ (be 4 sq ++
          (be 8 ts ++ (be 2 p.length ++ (be 4 ck ++ p))))))) := by
      simp only [fullPkt]
      rw [set_push (show PROTO_ID.length = 4 from rfl) h4, set_stay (be_length 1 v) (by omega)]
    have hgd : (fullPkt v mt sid sq ts ck p).getD i 0 = (be 1 v).getD (i - 4) 0 := by
      simp only [fullPkt]
      rw [getD_push (show PROTO_ID.length = 4 from rfl) h4, getD_stay (be_length 1 v) (by omega)]
    have hpp := parseHeader_concat PROTO_ID ((be 1 v).set (i - 4) b) (be 1 mt)
      (be 4 sid) (be 4 sq) (be 8 ts) (be 2 p.length) (be 4 ck) p rfl
      (by simp [be_length]) (be_length 1 mt) (be_length 4 sid) (be_length 4 sq)
      (be_length 8 ts) (be_length 2 p.length) (be_length 4 ck)
    have hvne : unpackBE ((be 1 v).set (i - 4) b) ≠ v := by
      have := unpack_set_ne (fun x hx => mem_be_lt hx)
        (by rw [be_length]; omega) hb (hgd ▸ hne)
      rwa [uv] at this
    rw [decodePacket.eq_def, if_neg (by rw [List.length_set, hdlen]; omega), hps,
      hpp.1, if_pos (Or.inr hvne)]
  rcases Nat.lt_or_ge i 6 with h6 | h6
  · -- flip of the message-type byte: the checksum check fails
    have hps : (fullPkt v mt sid sq ts ck p).set i b =
        PROTO_ID ++ (be 1 v ++ ((be 1 mt).set (i - 4 - 1) b ++ (be 4 sid ++ (be 4 sq ++
          (be 8 ts ++ (be 2 p.length ++ (be 4 ck ++ p))))))) := by
      simp only [fullPkt]
      rw [set_push (show PROTO_ID.length = 4 from rfl) h4, set_push (be_length 1 v) (by omega),
        set_stay (be_length 1 mt) (by omega)]
    have hZs : (zeroMsg v mt sid sq ts p).set i b =
        PROTO_ID ++ (be 1 v ++ ((be 1 mt).set (i - 4 - 1) b ++ (be 4 sid ++ (be 4 sq ++
          (be 8 ts ++ (be 2 p.length ++ (be 4 0 ++ p))))))) := by
      simp only [zeroMsg]
      rw [set_push (show PROTO_ID.length = 4 from rfl) h4, set_push (be_length 1 v) (by omega),
        set_stay (be_length 1 mt) (by omega)]
    have hgd : (fullPkt v mt sid sq ts ck p).getD i 0 = (be 1 mt).getD (i - 4 - 1) 0 := by
      simp only [fullPkt]
      rw [getD_push (show PROTO_ID.length = 4 from rfl) h4, getD_push (be_length 1 v) (by omega),
        getD_stay (be_length 1 mt) (by omega)]
    have hgZ : (zeroMsg v mt sid sq ts p).getD i 0 = (be 1 mt).getD (i - 4 - 1) 0 := by
      simp only [zeroMsg]
      rw [getD_push (show PROTO_ID.length = 4 from rfl) h4, getD_push (be_length 1 v) (by omega),
        getD_stay (be_length 1 mt) (by omega)]
    have hbytes : ∀ x ∈ (be 1 mt).set (i - 4 - 1) b, x < 256 := fun x hx => by
      rcases List.mem_or_eq_of_mem_set hx with hx' | hx'
      · exact mem_be_lt hx'
      · exact hx' ▸ hb
    have hpp := parseHeader_concat PROTO_ID (be 1 v) ((be 1 mt).set (i - 4 - 1) b)
      (be 4 sid) (be 4 sq) (be 8 ts) (be 2 p.length) (be 4 ck) p rfl (be_length 1 v)
      (by simp [be_length]) (be_length 4 sid) (be_length 4 sq) (be_length 8 ts)
      (be_length 2 p.length) (be_length 4 ck)
    rw [decodePacket.eq_def, if_neg (by rw [List.length_set, hdlen]; omega), hps, hpp.1]
    simp only [update_checksum_mk, uv, umt, usid, usq, uts, upl, uck, hpp.2,
      List.take_length]
    rw [packHeader_append_chunks, be_unpackBE (by simp [be_length]) hbytes, ← hZs]
    rw [if_neg (by simp), if_pos (by
      rw [hck]
      exact crc32_ne_set hZb (by rw [hZl]; omega) hb (by rw [hgZ, ← hgd]; exact hne))]
  rcases Nat.lt_or_ge i 10 with h10 | h10
  · -- flip inside the snapshot-id field: the checksum check fails
    have hps : (fullPkt v mt sid sq ts ck p).set i b =
        PROTO_ID ++ (be 1 v ++ (be 1 mt ++ ((be 4 sid).set (i - 4 - 1 - 1) b ++
          (be 4 sq ++ (be 8 ts ++ (be 2 p.length ++ (be 4 ck ++ p))))))) := by
      simp only [fullPkt]
      rw [set_push (show PROTO_ID.length = 4 from rfl) h4, set_push (be_length 1 v) (by omega),
        set_push (be_length 1 mt) (by omega), set_stay (be_length 4 sid) (by omega)]
    have hZs : (zeroMsg v mt sid sq ts p).set i b =
        PROTO_ID ++ (be 1 v ++ (be 1 mt ++ ((be 4 sid).set (i - 4 - 1 - 1) b ++
          (be 4 sq ++ (be 8 ts ++ (be 2 p.length ++ (be 4 0 ++ p))))))) := by
      simp only [zeroMsg]
      rw [set_push (show PROTO_ID.length = 4 from rfl) h4, set_push (be_length 1 v) (by omega),
        set_push (be_length 1 mt) (by omega), set_stay (be_length 4 sid) (by omega)]
    have hgd : (fullPkt v mt sid sq ts ck p).getD i 0 =
        (be 4 sid).getD (i - 4 - 1 - 1) 0 := by
      simp only [fullPkt]
      rw [getD_push (show PROTO_ID.length = 4 from rfl) h4, getD_push (be_length 1 v) (by omega),
        getD_push (be_length 1 mt) (by omega), getD_stay (be_length 4 sid) (by omega)]
    have hgZ : (zeroMsg v mt sid sq ts p).getD i 0 =
        (be 4 sid).getD (i - 4 - 1 - 1) 0 := by
      simp only [zeroMsg]
      rw [getD_push (show PROTO_ID.length = 4 from rfl) h4, getD_push (be_length 1 v) (by omega),
        getD_push (be_length 1 mt) (by omega), getD_stay (be_length 4 sid) (by omega)]
    have hbytes : ∀ x ∈ (be 4 sid).set (i - 4 - 1 - 1) b, x < 256 := fun x hx => by
      rcases List.mem_or_eq_of_mem_set hx with hx' | hx'
      · exact mem_be_lt hx'
      · exact hx' ▸ hb
    have hpp := parseHeader_concat PROTO_ID (be 1 v) (be 1 mt)
      ((be 4 sid).set (i - 4 - 1 - 1) b) (be 4 sq) (be 8 ts) (be 2 p.length)
      (be 4 ck) p rfl (be_length 1 v) (be_length 1 mt) (by simp [be_length])
      (be_length 4 sq) (be_length 8 ts) (be_length 2 p.length) (be_length 4 ck)
    rw [decodePacket.eq_def, if_neg (by rw [List.length_set, hdlen]; omega), hps, hpp.1]
    simp only [update_checksum_mk, uv, umt, usid, usq, uts, upl, uck, hpp.2,
      List.take_length]
    rw [packHeader_append_chunks, be_unpackBE (by simp [be_length]) hbytes, ← hZs]
    rw [if_neg (by simp), if_pos (by
      rw [hck]
      exact crc32_ne_set hZb (by rw [hZl]; omega) hb (by rw [hgZ, ← hgd]; exact hne))]
  rcases Nat.lt_or_ge i 14 with h14 | h14
  · -- flip inside the sequence-number field: the checksum check fails
    have hps : (fullPkt v mt sid sq ts ck p).set i b =
        PROTO_ID ++ (be 1 v ++ (be 1 mt ++ (be 4 sid ++
          ((be 4 sq).set (i - 4 - 1 - 1 - 4) b ++ (be 8 ts ++ (be 2 p.length ++
            (be 4 ck ++ p))))))) := by
      simp only [fullPkt]
      rw [set_push (show PROTO_ID.length = 4 from rfl) h4, set_push (be_length 1 v) (by omega),
        set_push (be_length 1 mt) (by omega), set_push (be_length 4 sid) (by omega),
        set_stay (be_length 4 sq) (by omega)]
    have hZs : (zeroMsg v mt sid sq ts p).set i b =
        PROTO_ID ++ (be 1 v ++ (be 1 mt ++ (be 4 sid ++
          ((be 4 sq).set (i - 4 - 1 - 1 - 4) b ++ (be 8 ts ++ (be 2 p.length ++
            (be 4 0 ++ p))))))) := by
      simp only [zeroMsg]
      rw [set_push (show PROTO_ID.length = 4 from rfl) h4, set_push (be_length 1 v) (by omega),
        set_push (be_length 1 mt) (by omega), set_push (be_length 4 sid) (by omega),
        set_stay (be_length 4 sq) (by omega)]
    have hgd : (fullPkt v mt sid sq ts ck p).getD i 0 =
        (be 4 sq).getD (i - 4 - 1 - 1 - 4) 0 := by
      simp only [fullPkt]
      rw [getD_push (show PROTO_ID.length = 4 from rfl) h4, getD_push (be_length 1 v) (by omega),
        getD_push (be_length 1 mt) (by omega), getD_push (be_length 4 sid) (by omega),
        getD_stay (be_length 4 sq) (by omega)]
    have hgZ : (zeroMsg v mt sid sq ts p).getD i 0 =
        (be 4 sq).getD (i - 4 - 1 - 1 - 4) 0 := by
      simp only [zeroMsg]
      rw [getD_push (show PROTO_ID.length = 4 from rfl) h4, getD_push (be_length 1 v) (by omega),
        getD_push (be_length 1 mt) (by omega), getD_push (be_length 4 sid) (by omega),
        getD_stay (be_length 4 sq) (by omega)]
    have hbytes : ∀ x ∈ (be 4 sq).set (i - 4 - 1 - 1 - 4) b, x < 256 := fun x hx => by
      rcases List.mem_or_eq_of_mem_set hx with hx' | hx'
      · exact mem_be_lt hx'
      · exact hx' ▸ hb
    have hpp := parseHeader_concat PROTO_ID (be 1 v) (be 1 mt) (be 4 sid)
      ((be 4 sq).set (i - 4 - 1 - 1 - 4) b) (be 8 ts) (be 2 p.length)
      (be 4 ck) p rfl (be_length 1 v) (be_length 1 mt) (be_length 4 sid)
      (by simp [be_length]) (be_length 8 ts) (be_length 2 p.length) (be_length 4 ck)
    rw [decodePacket.eq_def, if_neg (by rw [List.length_set, hdlen]; omega), hps, hpp.1]
    simp only [update_checksum_mk, uv, umt, usid, usq, uts, upl, uck, hpp.2,
      List.take_length]
    rw [packHeader_append_chunks, be_unpackBE (by simp [be_length]) hbytes, ← hZs]
    rw [if_neg (by simp), if_pos (by
      rw [hck]
      exact crc32_ne_set hZb (by rw [hZl]; omega) hb (by rw [hgZ, ← hgd]; exact hne))]
  rcases Nat.lt_or_ge i 22 with h22 | h22
  · -- flip inside the timestamp field: the checksum check fails
    have hps : (fullPkt v mt sid sq ts ck p).set i b =
        PROTO_ID ++ (be 1 v ++ (be 1 mt ++ (be 4 sid ++ (be 4 sq ++
          ((be 8 ts).set (i - 4 - 1 - 1 - 4 - 4) b ++ (be 2 p.length ++
            (be 4 ck ++ p))))))) := by
      simp only [fullPkt]
      rw [set_push (show PROTO_ID.length = 4 from rfl) h4, set_push (be_length 1 v) (by omega),
        set_push (be_length 1 mt) (by omega), set_push (be_length 4 sid) (by omega),
        set_push (be_length 4 sq) (by omega), set_stay (be_length 8 ts) (by omega)]
    have hZs : (zeroMsg v mt sid sq ts p).set i b =
        PROTO_ID ++ (be 1 v ++ (be 1 mt ++ (be 4 sid ++ (be 4 sq ++
          ((be 8 ts).set (i - 4 - 1 - 1 - 4 - 4) b ++ (be 2 p.length ++
            (be 4 0 ++ p))))))) := by
      simp only [zeroMsg]
      rw [set_push (show PROTO_ID.length = 4 from rfl) h4, set_push (be_length 1 v) (by omega),
        set_push (be_length 1 mt) (by omega), set_push (be_length 4 sid) (by omega),
        set_push (be_length 4 sq) (by omega), set_stay (be_length 8 ts) (by omega)]
    have hgd : (fullPkt v mt sid sq ts ck p).getD i 0 =
        (be 8 ts).getD (i - 4 - 1 - 1 - 4 - 4) 0 := by
      simp only [fullPkt]
      rw [getD_push (show PROTO_ID.length = 4 from rfl) h4, getD_push (be_length 1 v) (by omega),
        getD_push (be_length 1 mt) (by omega), getD_push (be_length 4 sid) (by omega),
        getD_push (be_length 4 sq) (by omega), getD_stay (be_length 8 ts) (by omega)]
    have hgZ : (zeroMsg v mt sid sq ts p).getD i 0 =
        (be 8 ts).getD (i - 4 - 1 - 1 - 4 - 4) 0 := by
      simp only [zeroMsg]
      rw [getD_push (show PROTO_ID.length = 4 from rfl) h4, getD_push (be_length 1 v) (by omega),
        getD_push (be_length 1 mt) (by omega), getD_push (be_length 4 sid) (by omega),
        getD_push (be_length 4 sq) (by omega), getD_stay (be_length 8 ts) (by omega)]
    have hbytes : ∀ x ∈ (be 8 ts).set (i - 4 - 1 - 1 - 4 - 4) b, x < 256 :=
      fun x hx => by
      rcases List.mem_or_eq_of_mem_set hx with hx' | hx'
      · exact mem_be_lt hx'
      · exact hx' ▸ hb
    have hpp := parseHeader_concat PROTO_ID (be 1 v) (be 1 mt) (be 4 sid) (be 4 sq)
      ((be 8 ts).set (i - 4 - 1 - 1 - 4 - 4) b) (be 2 p.length)
      (be 4 ck) p rfl (be_length 1 v) (be_length 1 mt) (be_length 4 sid)
      (be_length 4 sq) (by simp [be_length]) (be_length 2 p.length) (be_length 4 ck)
    rw [decodePacket.eq_def, if_neg (by rw [List.length_set, hdlen]; omega), hps, hpp.1]
    simp only [update_checksum_mk, uv, umt, usid, usq, uts, upl, uck, hpp.2,
      List.take_length]
    rw [packHeader_append_chunks, be_unpackBE (by simp [be_length]) hbytes, ← hZs]
    rw [if_neg (by simp), if_pos (by
      rw [hck]
      exact crc32_ne_set hZb (by rw [hZl]; omega) hb (by rw [hgZ, ← hgd]; exact hne))]
  have h24 : 24 ≤ i := by omega
  rcases Nat.lt_or_ge i 28 with h28 | h28
  · -- flip inside the stored checksum: the checksum check fails
    have hps : (fullPkt v mt sid sq ts ck p).set i b =
        PROTO_ID ++ (be 1 v ++ (be 1 mt ++ (be 4 sid ++ (be 4 sq ++ (be 8 ts ++
          (be 2 p.length ++ ((be 4 ck).set (i - 4 - 1 - 1 - 4 - 4 - 8 - 2) b ++
            p))))))) := by
      simp only [fullPkt]
      rw [set_push (show PROTO_ID.length = 4 from rfl) h4, set_push (be_length 1 v) (by omega),
        set_push (be_length 1 mt) (by omega), set_push (be_length 4 sid) (by omega),
        set_push (be_length 4 sq) (by omega), set_push (be_length 8 ts) (by omega),
        set_push (be_length 2 p.length) (by omega),
        set_stay (be_length 4 ck) (by omega)]
    have hgd : (fullPkt v mt sid sq ts ck p).getD i 0 =
        (be 4 ck).getD (i - 4 - 1 - 1 - 4 - 4 - 8 - 2) 0 := by
      simp only [fullPkt]
      rw [getD_push (show PROTO_ID.length = 4 from rfl) h4, getD_push (be_length 1 v) (by omega),
        getD_push (be_length 1 mt) (by omega), getD_push (be_length 4 sid) (by omega),
        getD_push (be_length 4 sq) (by omega), getD_push (be_length 8 ts) (by omega),
        getD_push (be_length 2 p.length) (by omega),
        getD_stay (be_length 4 ck) (by omega)]
    have hpp := parseHeader_concat PROTO_ID (be 1 v) (be 1 mt) (be 4 sid) (be 4 sq)
      (be 8 ts) (be 2 p.length) ((be 4 ck).set (i - 4 - 1 - 1 - 4 - 4 - 8 - 2) b) p
      rfl (be_length 1 v) (be_length 1 mt) (be_length 4 sid) (be_length 4 sq)
      (be_length 8 ts) (be_length 2 p.length) (by simp [be_length])
    have hckne : unpackBE ((be 4 ck).set (i - 4 - 1 - 1 - 4 - 4 - 8 - 2) b) ≠ ck := by
      have := unpack_set_ne (fun x hx => mem_be_lt hx)
        (by rw [be_length]; omega) hb (hgd ▸ hne)
      rwa [uck] at this
    rw [decodePacket.eq_def, if_neg (by rw [List.length_set, hdlen]; omega), hps, hpp.1]
    simp only [update_checksum_mk, uv, umt, usid, usq, uts, upl, hpp.2,
      List.take_length]
    rw [packHeader_append_chunks,
      show PROTO_ID ++ (be 1 v ++ (be 1 mt ++ (be 4 sid ++ (be 4 sq ++ (be 8 ts ++
        (be 2 p.length ++ (be 4 0 ++ p))))))) = zeroMsg v mt sid sq ts p from rfl]
    rw [if_neg (by simp), if_pos (by rw [← hck]; exact fun h => hckne h.symm)]
  · -- flip inside the payload: the checksum check fails
    have hps : (fullPkt v mt sid sq ts ck p).set i b =
        PROTO_ID ++ (be 1 v ++ (be 1 mt ++ (be 4 sid ++ (be 4 sq ++ (be 8 ts ++
          (be 2 p.length ++ (be 4 ck ++
            p.set (i - 4 - 1 - 1 - 4 - 4 - 8 - 2 - 4) b))))))) := by
      simp only [fullPkt]
      rw [set_push (show PROTO_ID.length = 4 from rfl) h4, set_push (be_length 1 v) (by omega),
        set_push (be_length 1 mt) (by omega), set_push (be_length 4 sid) (by omega),
        set_push (be_length 4 sq) (by omega), set_push (be_length 8 ts) (by omega),
        set_push (be_length 2 p.length) (by omega),
        set_push (be_length 4 ck) (by omega)]
    have hZs : (zeroMsg v mt sid sq ts p).set i b =
        PROTO_ID ++ (be 1 v ++ (be 1 mt ++ (be 4 sid ++ (be 4 sq ++ (be 8 ts ++
          (be 2 p.length ++ (be 4 0 ++
            p.set (i - 4 - 1 - 1 - 4 - 4 - 8 - 2 - 4) b))))))) := by
      simp only [zeroMsg]
      rw [set_push (show PROTO_ID.length = 4 from rfl) h4, set_push (be_length 1 v) (by omega),
        set_push (be_length 1 mt) (by omega), set_push (be_length 4 sid) (by omega),
        set_push (be_length 4 sq) (by omega), set_push (be_length 8 ts) (by omega),
        set_push (be_length 2 p.length) (by omega),
        set_push (be_length 4 0) (by omega)]
    have hgd : (fullPkt v mt sid sq ts ck p).getD i 0 =
        p.getD (i - 4 - 1 - 1 - 4 - 4 - 8 - 2 - 4) 0 := by
      simp only [fullPkt]
      rw [getD_push (show PROTO_ID.length = 4 from rfl) h4, getD_push (be_length 1 v) (by omega),
        getD_push (be_length 1 mt) (by omega), getD_push (be_length 4 sid) (by omega),
        getD_push (be_length 4 sq) (by omega), getD_push (be_length 8 ts) (by omega),
        getD_push (be_length 2 p.length) (by omega),
        getD_push (be_length 4 ck) (by omega)]
    have hgZ : (zeroMsg v mt sid sq ts p).getD i 0 =
        p.getD (i - 4 - 1 - 1 - 4 - 4 - 8 - 2 - 4) 0 := by
      simp only [zeroMsg]
      rw [getD_push (show PROTO_ID.length = 4 from rfl) h4, getD_push (be_length 1 v) (by omega),
        getD_push (be_length 1 mt) (by omega), getD_push (be_length 4 sid) (by omega),
        getD_push (be_length 4 sq) (by omega), getD_push (be_length 8 ts) (by omega),
        getD_push (be_length 2 p.length) (by omega),
        getD_push (be_length 4 0) (by omega)]
    have hpp := parseHeader_concat PROTO_ID (be 1 v) (be 1 mt) (be 4 sid) (be 4 sq)
      (be 8 ts) (be 2 p.length) (be 4 ck)
      (p.set (i - 4 - 1 - 1 - 4 - 4 - 8 - 2 - 4) b)
      rfl (be_length 1 v) (be_length 1 mt) (be_length 4 sid) (be_length 4 sq)
      (be_length 8 ts) (be_length 2 p.length) (be_length 4 ck)
    have htake : List.take p.length (p.set (i - 4 - 1 - 1 - 4 - 4 - 8 - 2 - 4) b) =
        p.set (i - 4 - 1 - 1 - 4 - 4 - 8 - 2 - 4) b :=
      List.take_of_length_le (by simp)
    rw [decodePacket.eq_def, if_neg (by rw [List.length_set, hdlen]; omega), hps, hpp.1]
    simp only [update_checksum_mk, uv, umt, usid, usq, uts, upl, uck, hpp.2, htake]
    rw [packHeader_append_chunks, ← hZs]
    rw [if_neg (by simp), if_pos (by
      rw [hck]
      exact crc32_ne_set hZb (by rw [hZl]; omega) hb (by rw [hgZ, ← hgd]; exact hne))]

/-! ## Claim-resolution lemmas -/

theorem getD_set_ne {l : List Nat} {i j b : Nat} (h : i ≠ j) :
    (l.set i b).getD j 0 = l.getD j 0 := by
  rw [List.getD_eq_getElem?_getD, List.getD_eq_getElem?_getD, List.getElem?_set_ne h]

theorem getD_set_self {l : List Nat} {i b : Nat} (h : i < l.length) :
    (l.set i b).getD i 0 = b := by
  rw [List.getD_eq_getElem?_getD, List.getElem?_set_self h]
  rfl

theorem set_getD_self (l : List Nat) (c : Nat) : l.set c (l.getD c 0) = l := by
  induction l generalizing c with
  | nil => rfl
  | cons a t ih =>
    cases c with
    | zero => rfl
    | succ c =>
      show a :: t.set c (t.getD c 0) = a :: t
      rw [ih c]

/-- Once a cell's owner is non-zero, no request changes it. -/
theorem handleEvent_stable {g : List Nat} (q c : Nat) {d : Nat}
    (hd : g.getD d 0 ≠ 0) : (handleEvent g q c).1.getD d 0 = g.getD d 0 := by
  unfold handleEvent
  split
  · next hcond =>
    by_cases hdc : c = d
    · subst hdc
      exact absurd hcond.2 hd
    · simpa using getD_set_ne hdc
  · rfl

theorem processEvents_stable {g : List Nat} {d : Nat} (reqs : List (Nat × Nat))
    (hd : g.getD d 0 ≠ 0) : (processEvents g reqs).getD d 0 = g.getD d 0 := by
  induction reqs generalizing g with
  | nil => rfl
  | cons r t ih =>
    show (processEvents (handleEvent g r.1 r.2).1 t).getD d 0 = g.getD d 0
    rw [ih (by rw [handleEvent_stable r.1 r.2 hd]; exact hd),
      handleEvent_stable r.1 r.2 hd]

/-- C2: in a sequence of EVENT requests processed in arrival order with
player ids in 1..8, a request naming an in-range unclaimed cell is accepted
and makes the requester the owner; after that, the owner stays the same
through any further requests, and any later request naming that cell is
rejected. -/
theorem claim_fcfs_once_claimed_never_changes (grid : List Nat) (p c q : Nat)
    (reqs : List (Nat × Nat)) (hlen : grid.length = GRID_N * GRID_N)
    (hc : c < GRID_N * GRID_N) (h0 : grid.getD c 0 = 0) (hp1 : 1 ≤ p) (hp8 : p ≤ 8) :
    (handleEvent grid p c).2 = 1 ∧
    (handleEvent grid p c).1.getD c 0 = p ∧
    (processEvents (handleEvent grid p c).1 reqs).getD c 0 = p ∧
    (handleEvent (processEvents (handleEvent grid p c).1 reqs) q c).2 = 0 := by
  have hc' : c < grid.length := by omega
  have hacc : handleEvent grid p c = (grid.set c p, 1) := by
    unfold handleEvent
    rw [if_pos ⟨hc, h0⟩]
  have hnz : (grid.set c p).getD c 0 ≠ 0 := by
    rw [getD_set_self hc']
    omega
  have hinv : (processEvents (grid.set c p) reqs).getD c 0 = p := by
    rw [processEvents_stable reqs hnz, getD_set_self hc']
  refine ⟨by rw [hacc], by rw [hacc]; exact getD_set_self hc', by rw [hacc]; exact hinv, ?_⟩
  rw [hacc]
  unfold handleEvent
  rw [if_neg (fun hcon => by rw [hinv] at hcon; omega)]

/-- C2 witness. -/
theorem claim_fcfs_once_claimed_never_changes_witness :
    (handleEvent (List.replicate 100 0) 3 0).2 = 1 ∧
    (handleEvent (List.replicate 100 0) 3 0).1.getD 0 0 = 3 ∧
    (processEvents (handleEvent (List.replicate 100 0) 3 0).1 [(5, 0)]).getD 0 0 = 3 ∧
    (handleEvent (processEvents (handleEvent (List.replicate 100 0) 3 0).1 [(5, 0)])
      3 0).2 = 0 :=
  claim_fcfs_once_claimed_never_changes (List.replicate 100 0) 3 0 3 [(5, 0)]
    (by decide) (by decide) (by decide) (by decide) (by decide)

/-- C10: the server never validates the player id of an EVENT, so an EVENT
with player id 0 naming an in-range unclaimed cell is accepted
(`accepted = 1` is logged) yet the grid is unchanged, and the cell remains
claimable by any later request. -/
theorem claim_zero_player_id_accepted_no_change (grid : List Nat) (c q : Nat)
    (hc : c < GRID_N * GRID_N) (h0 : grid.getD c 0 = 0) :
    handleEvent grid 0 c = (grid, 1) ∧ (handleEvent grid q c).2 = 1 := by
  constructor
  · unfold handleEvent
    rw [if_pos ⟨hc, h0⟩, show grid.set c 0 = grid from h0 ▸ set_getD_self grid c]
  · unfold handleEvent
    rw [if_pos ⟨hc, h0⟩]

/-- C10 witness. -/
theorem claim_zero_player_id_accepted_no_change_witness :
    handleEvent (List.replicate 100 0) 0 7 = (List.replicate 100 0, 1) ∧
    (handleEvent (List.replicate 100 0) 4 7).2 = 1 :=
  claim_zero_player_id_accepted_no_change (List.replicate 100 0) 7 4
    (by decide) (by decide)

/-! ## Sequence accounting -/

/-- C4: feeding the sequence numbers [0, 1, 1, 3, 5] to the reconciliation
cursor from the initial state yields exactly 1 duplicate and a cumulative
lost count of 2. -/
theorem claim_sequence_accounting_example :
    (processSeqs initMetrics [0, 1, 1, 3, 5]).duplicates = 1 ∧
    (processSeqs initMetrics [0, 1, 1, 3, 5]).lost = 2 := by
  constructor <;> rfl

/-- C5 counterexample: the cursor is written unconditionally, so processing
sequence numbers 5 then 3 moves the cursor backwards from 5 to 3 — the
claimed monotonicity fails. -/
theorem claim_cursor_monotonic_counterexample :
    (updateSeqMetrics (processSeqs initMetrics [5]) 3).lastSeq <
      (processSeqs initMetrics [5]).lastSeq := by
  decide

/-- C5 (amended): after processing a packet the cursor equals that packet's
sequence number; hence the cursor is non-decreasing only across packets
whose sequence number is at least the current cursor. -/
theorem claim_cursor_set_to_new_seq (m : Metrics) (seq : Nat) :
    (updateSeqMetrics m seq).lastSeq = (seq : Int) ∧
    (m.lastSeq ≤ (seq : Int) → m.lastSeq ≤ (updateSeqMetrics m seq).lastSeq) := by
  exact ⟨rfl, fun h => h⟩

/-- C5 amended-claim witness. -/
theorem claim_cursor_set_to_new_seq_witness :
    (updateSeqMetrics initMetrics 2).lastSeq = (2 : Int) ∧
    initMetrics.lastSeq ≤ (updateSeqMetrics initMetrics 2).lastSeq :=
  ⟨(claim_cursor_set_to_new_seq initMetrics 2).1,
    (claim_cursor_set_to_new_seq initMetrics 2).2 (by decide)⟩

/-! ## Snapshot application -/

theorem parseChunks_pos {payload : List Nat}
    (h : GRID_N * GRID_N + 1 ≤ payload.length ∧ payload.getD 0 0 = GRID_N) :
    parseChunks payload = (payload.drop 1).take (GRID_N * GRID_N) ::
      parseChunks (payload.drop (GRID_N * GRID_N + 1)) := by
  rw [parseChunks]
  exact dif_pos h

theorem parseChunks_neg {payload : List Nat}
    (h : ¬(GRID_N * GRID_N + 1 ≤ payload.length ∧ payload.getD 0 0 = GRID_N)) :
    parseChunks payload = [] := by
  rw [parseChunks]
  exact dif_neg h

/-- C9: snapshot application is atomic — after `handle_snapshot` the local
grid either equals exactly the first embedded blob's 100 cells (dimension
byte 10 and all 100 cell bytes present) or is completely unchanged (first
blob truncated or wrong dimension byte); never a partial mixture. -/
theorem claim_snapshot_applied_atomically (grid payload : List Nat) :
    (payload.getD 0 0 = GRID_N ∧ GRID_N * GRID_N + 1 ≤ payload.length →
      (applySnapshot grid payload).1 = (payload.drop 1).take (GRID_N * GRID_N)) ∧
    (payload.getD 0 0 ≠ GRID_N ∨ payload.length < GRID_N * GRID_N + 1 →
      (applySnapshot grid payload).1 = grid) := by
  constructor
  · intro h
    unfold applySnapshot
    rw [parseChunks_pos ⟨h.2, h.1⟩]
  · intro h
    unfold applySnapshot
    rw [parseChunks_neg (fun hcon => by
      rcases h with h | h
      · exact h hcon.2
      · omega)]

/-- C9 witness: a well-formed payload is applied in full; a truncated or
mis-dimensioned payload leaves the grid untouched. -/
theorem claim_snapshot_applied_atomically_witness :
    (applySnapshot (List.replicate 100 0) (10 :: List.replicate 100 7)).1 =
      List.replicate 100 7 ∧
    (applySnapshot (List.replicate 100 0) [10, 3, 3]).1 = List.replicate 100 0 ∧
    (applySnapshot (List.replicate 100 0) (9 :: List.replicate 100 7)).1 =
      List.replicate 100 0 :=
  ⟨by
    have h := (claim_snapshot_applied_atomically (List.replicate 100 0)
      (10 :: List.replicate 100 7)).1 (by constructor <;> decide)
    rw [h]
    decide,
   (claim_snapshot_applied_atomically (List.replicate 100 0) [10, 3, 3]).2
     (by right; decide),
   (claim_snapshot_applied_atomically (List.replicate 100 0)
     (9 :: List.replicate 100 7)).2 (by left; decide)⟩

/-! ## Redundancy buffer -/

theorem historyAfter_eq (snaps : Nat → List Nat) (t : Nat) :
    historyAfter snaps t = ((List.range t).reverse.map snaps).take 3 := by
  induction t with
  | zero => rfl
  | succ t ih =>
    show pushSnapshot (historyAfter snaps t) (snaps t) = _
    rw [ih, pushSnapshot, List.range_succ, List.reverse_append, List.reverse_singleton,
      List.singleton_append, List.map_cons]
    rw [show (3 : Nat) = 2 + 1 from rfl, List.take_succ_cons, List.take_succ_cons,
      List.take_take]
    norm_num

theorem historyAfter_length (snaps : Nat → List Nat) (t : Nat) :
    (historyAfter snaps t).length = min t 3 := by
  rw [historyAfter_eq, List.length_take, List.length_map, List.length_reverse,
    List.length_range, Nat.min_comm]

theorem parseChunks_flatten (bs : List (List Nat))
    (hv : ∀ blob ∈ bs, ∃ g, blob = GRID_N :: g ∧ g.length = GRID_N * GRID_N) :
    parseChunks bs.flatten = bs.map (fun blob => blob.drop 1) := by
  induction bs with
  | nil =>
    rw [List.flatten_nil, List.map_nil]
    exact parseChunks_neg (by intro h; simp [GRID_N] at h)
  | cons blob rest ih =>
    obtain ⟨g, rfl, hg⟩ := hv blob (by simp)
    have hlen : (GRID_N :: g).length = GRID_N * GRID_N + 1 := by
      simp [hg]
    rw [List.flatten_cons, List.map_cons]
    have hcond1 : GRID_N * GRID_N + 1 ≤ ((GRID_N :: g) ++ rest.flatten).length := by
      simp only [List.length_append, hlen]
      omega
    have hcond2 : ((GRID_N :: g) ++ rest.flatten).getD 0 0 = GRID_N := rfl
    rw [parseChunks_pos ⟨hcond1, hcond2⟩]
    congr 1
    · rw [List.cons_append, List.drop_succ_cons, List.drop_zero,
        List.take_left' hg]
      simp
    · rw [List.drop_left' hlen]
      exact ih fun b hb => hv b (by simp [hb])

/-- C6: after `t` broadcast ticks the redundancy buffer and the combined
payload contain exactly `min t 3` snapshot blobs, newest first; the retained
count never exceeds K = 3, and from tick 3 on it is exactly 3. -/
theorem claim_redundancy_bound (snaps : Nat → List Nat) (t : Nat)
    (hsn : ∀ u, ∃ g, snaps u = build_snapshot_payload g ∧
      g.length = GRID_N * GRID_N) :
    (historyAfter snaps t).length = min t 3 ∧
    (∀ u, (historyAfter snaps u).length ≤ 3) ∧
    (3 ≤ t → (historyAfter snaps t).length = 3) ∧
    historyAfter snaps t = ((List.range t).reverse.map snaps).take 3 ∧
    (parseChunks (historyAfter snaps t).flatten).length = min t 3 := by
  have hval : ∀ blob ∈ historyAfter snaps t, ∃ g, blob = GRID_N :: g ∧
      g.length = GRID_N * GRID_N := by
    intro blob hb
    rw [historyAfter_eq] at hb
    have hb' := List.mem_map.mp (List.take_subset 3 _ hb)
    obtain ⟨u, _, rfl⟩ := hb'
    obtain ⟨g, hgu, hglen⟩ := hsn u
    exact ⟨g, hgu, hglen⟩
  refine ⟨historyAfter_length snaps t, fun u => by rw [historyAfter_length]; omega,
    fun h3 => by rw [historyAfter_length]; omega, historyAfter_eq snaps t, ?_⟩
  rw [parseChunks_flatten _ hval, List.length_map, historyAfter_length]

/-- C6 witness. -/
theorem claim_redundancy_bound_witness :
    (historyAfter (fun _ => build_snapshot_payload (List.replicate 100 0)) 5).length =
      min 5 3 ∧
    (parseChunks (historyAfter
      (fun _ => build_snapshot_payload (List.replicate 100 0)) 5).flatten).length =
      min 5 3 := by
  have h := claim_redundancy_bound (fun _ => build_snapshot_payload (List.replicate 100 0))
    5 (fun _ => ⟨List.replicate 100 0, rfl, by decide⟩)
  exact ⟨h.1, h.2.2.2.2⟩

/-! ## Loop-boundary error handling -/

/-- C8: an exception inside one loop-body iteration of the server receive
activity, the client receive activity, or one endpoint's send in the
broadcast activity is caught, the loop continues, and the remaining
events/endpoints are handled exactly as if the bad one had not occurred;
the broadcast state evolution is independent of which endpoints fail. -/
theorem claim_loop_survives_bad_packet_and_endpoint :
    (∀ (st : ServerState) (e : NetEvent) (es : List NetEvent) (m : String),
      serverRecvBody st e = .error m →
      serverRecvLoop st (e :: es) = serverRecvLoop st es) ∧
    (∀ (st : ClientState) (e : NetEvent) (es : List NetEvent) (m : String),
      clientRecvBody st e = .error m →
      clientRecvLoop st (e :: es) = clientRecvLoop st es) ∧
    (∀ (clients : List Nat) (fails : Nat → Bool) (c : Nat),
      c ∈ clients → fails c = false → c ∈ sendToAll clients fails) ∧
    (∀ (st : BcastState) (ticks ticks' : List (List Nat × Nat × List Nat × (Nat → Bool))),
      ticks.map (fun tk => (tk.1, tk.2.1, tk.2.2.1)) =
        ticks'.map (fun tk => (tk.1, tk.2.1, tk.2.2.1)) →
      broadcastLoop st ticks = broadcastLoop st ticks') := by
  refine ⟨?_, ?_, ?_, ?_⟩
  · intro st e es m hbody
    show serverRecvLoop (serverRecvLoopStep st e) es = serverRecvLoop st es
    rw [show serverRecvLoopStep st e = st by rw [serverRecvLoopStep, hbody]]
  · intro st e es m hbody
    show clientRecvLoop (clientRecvLoopStep st e) es = clientRecvLoop st es
    rw [show clientRecvLoopStep st e = st by rw [clientRecvLoopStep, hbody]]
  · intro clients fails c hc hf
    rw [sendToAll, List.mem_filter]
    exact ⟨hc, by rw [hf]; rfl⟩
  · intro st ticks ticks' hsame
    induction ticks generalizing st ticks' with
    | nil =>
      cases ticks' with
      | nil => rfl
      | cons _ _ => exact absurd hsame (by simp)
    | cons tk rest ih =>
      cases ticks' with
      | nil => exact absurd hsame (by simp)
      | cons tk' rest' =>
        simp only [List.map_cons, List.cons.injEq, Prod.mk.injEq] at hsame
        show broadcastLoop (broadcastTick st tk.1 tk.2.1 tk.2.2.1 tk.2.2.2).1 rest =
          broadcastLoop (broadcastTick st tk'.1 tk'.2.1 tk'.2.2.1 tk'.2.2.2).1 rest'
        have hstate : (broadcastTick st tk.1 tk.2.1 tk.2.2.1 tk.2.2.2).1 =
            (broadcastTick st tk'.1 tk'.2.1 tk'.2.2.1 tk'.2.2.2).1 := by
          simp only [broadcastTick, hsame.1.1]
        rw [hstate]
        exact ih _ rest' (by simpa using hsame.2)

/-- C8 witness: a fault event is skipped by both receive loops, a healthy
endpoint is reached even when another endpoint fails, and the broadcast
state does not depend on the failure oracle. -/
theorem claim_loop_survives_bad_packet_and_endpoint_witness :
    serverRecvLoop ⟨[], []⟩ [.fault "boom", .pkt 1 []] =
      serverRecvLoop ⟨[], []⟩ [.pkt 1 []] ∧
    clientRecvLoop ⟨[], initMetrics, false, 0, []⟩ [.fault "boom"] =
      clientRecvLoop ⟨[], initMetrics, false, 0, []⟩ [] ∧
    2 ∈ sendToAll [1, 2] (fun c => c == 1) ∧
    broadcastLoop ⟨0, 0, []⟩ [([], 0, [1], fun _ => true)] =
      broadcastLoop ⟨0, 0, []⟩ [([], 0, [1], fun _ => false)] :=
  ⟨claim_loop_survives_bad_packet_and_endpoint.1 ⟨[], []⟩ (.fault "boom")
      [.pkt 1 []] "boom" rfl,
   claim_loop_survives_bad_packet_and_endpoint.2.1
      ⟨[], initMetrics, false, 0, []⟩ (.fault "boom") [] "boom" rfl,
   claim_loop_survives_bad_packet_and_endpoint.2.2.1 [1, 2] (fun c => c == 1) 2
      (by decide) (by decide),
   claim_loop_survives_bad_packet_and_endpoint.2.2.2 ⟨0, 0, []⟩
      [([], 0, [1], fun _ => true)] [([], 0, [1], fun _ => false)] rfl⟩

/-! ## The client/server version mismatch -/

/-- C1 (failing evaluation): the client encodes INIT and EVENT packets with
its `VERSION = 1`, but the server validates against `VERSION = 2`, so the
server's decode drops every client packet (and registration never happens);
under the client's own version constant the very same packets pass, showing
the version byte is the only obstacle. -/
theorem claim_end_to_end_version_mismatch :
    decodePacket Server.VERSION (Client.send_init_packet 1 0) = none ∧
    decodePacket Server.VERSION (Client.send_event_packet 1 0 0) = none ∧
    (decodePacket Client.VERSION (Client.send_init_packet 1 0)).isSome = true ∧
    (decodePacket Client.VERSION (Client.send_event_packet 1 0 0)).isSome = true ∧
    recvStep ⟨[], List.replicate (GRID_N * GRID_N) 0⟩ 7 (Client.send_init_packet 1 0) =
      ⟨[], List.replicate (GRID_N * GRID_N) 0⟩ := by
  refine ⟨?_, ?_, ?_, ?_, ?_⟩ <;> decide

/-! ## Winner computation and the GAME_OVER payload -/

theorem lookupD_nil (q : Nat) : lookupD [] q = 0 := rfl

theorem lookupD_cons (r n q : Nat) (t : List (Nat × Nat)) :
    lookupD ((r, n) :: t) q = if r = q then n else lookupD t q := by
  by_cases h : r = q
  · rw [if_pos h]
    simp [lookupD, List.find?_cons_of_pos, h]
  · rw [if_neg h]
    simp only [lookupD]
    rw [List.find?_cons_of_neg _ (by simpa using h)]

theorem lookupD_bump_self (s : List (Nat × Nat)) (a : Nat) :
    lookupD (bump s a) a = lookupD s a + 1 := by
  induction s with
  | nil => simp [bump, lookupD_cons, lookupD_nil]
  | cons x t ih =>
    obtain ⟨r, n⟩ := x
    by_cases h : r = a
    · subst h
      simp [bump, lookupD_cons]
    · simp [bump, h, lookupD_cons, ih]

theorem lookupD_bump_other {a q : Nat} (s : List (Nat × Nat)) (h : a ≠ q) :
    lookupD (bump s a) q = lookupD s q := by
  induction s with
  | nil => simp [bump, lookupD_cons, lookupD_nil, h]
  | cons x t ih =>
    obtain ⟨r, n⟩ := x
    by_cases hr : r = a
    · subst hr
      simp [bump, lookupD_cons, h]
    · simp [bump, hr, lookupD_cons, ih]

theorem lookupD_count_fold (g : List Nat) : ∀ (s : List (Nat × Nat)) (q : Nat),
    q ≠ 0 →
    lookupD (g.foldl (fun s o => if o ≠ 0 then bump s o else s) s) q =
      lookupD s q + g.count q := by
  induction g with
  | nil =>
    intro s q _
    simp
  | cons a t ih =>
    intro s q hq
    rw [List.foldl_cons, ih _ q hq, List.count_cons]
    by_cases ha : a = q
    · subst ha
      rw [if_pos hq, lookupD_bump_self]
      simp
      omega
    · have : (if a ≠ 0 then bump s a else s) = s ∨
          (if a ≠ 0 then bump s a else s) = bump s a := by
        by_cases h0 : a = 0
        · left; simp [h0]
        · right; simp [h0]
      rcases this with h | h
      · rw [h]
        simp [ha]
      · rw [h, lookupD_bump_other s ha]
        simp [ha]

theorem lookupD_scoresOf (g : List Nat) (q : Nat) (hq : q ≠ 0) :
    lookupD (scoresOf g) q = g.count q := by
  have h := lookupD_count_fold g [] q hq
  rw [scoresOf, h, lookupD_nil, Nat.zero_add]

theorem mem_keys_bump (s : List (Nat × Nat)) (a q : Nat) :
    q ∈ (bump s a).map Prod.fst ↔ q ∈ s.map Prod.fst ∨ q = a := by
  induction s with
  | nil => simp [bump]
  | cons x t ih =>
    obtain ⟨r, n⟩ := x
    by_cases hr : r = a
    · subst hr
      simp [bump]
      tauto
    · simp [bump, hr, ih]
      tauto

theorem mem_keys_fold (g : List Nat) : ∀ (s : List (Nat × Nat)) (q : Nat),
    q ∈ (g.foldl (fun s o => if o ≠ 0 then bump s o else s) s).map Prod.fst ↔
      q ∈ s.map Prod.fst ∨ (q ∈ g ∧ q ≠ 0) := by
  induction g with
  | nil =>
    intro s q
    simp
  | cons a t ih =>
    intro s q
    rw [List.foldl_cons, ih]
    by_cases ha : a = 0
    · subst ha
      simp only [ne_eq, not_true_eq_false, if_false, List.mem_cons]
      constructor
      · rintro (h | h)
        · exact Or.inl h
        · exact Or.inr ⟨Or.inr h.1, h.2⟩
      · rintro (h | ⟨h1 | h1, h2⟩)
        · exact Or.inl h
        · exact absurd h1 h2
        · exact Or.inr ⟨h1, h2⟩
    · rw [if_pos ha]
      constructor
      · rintro (h | h)
        · rcases (mem_keys_bump s a q).mp h with h' | h'
          · exact Or.inl h'
          · exact Or.inr ⟨by rw [h']; exact List.mem_cons_self a t, by rw [h']; exact ha⟩
        · exact Or.inr ⟨List.mem_cons_of_mem a h.1, h.2⟩
      · rintro (h | ⟨hmem, hq⟩)
        · exact Or.inl ((mem_keys_bump s a q).mpr (Or.inl h))
        · rcases List.mem_cons.mp hmem with h' | h'
          · exact Or.inl ((mem_keys_bump s a q).mpr (Or.inr h'))
          · exact Or.inr ⟨h', hq⟩

theorem mem_keys_scoresOf (g : List Nat) (q : Nat) :
    q ∈ (scoresOf g).map Prod.fst ↔ q ∈ g ∧ q ≠ 0 := by
  have h := mem_keys_fold g [] q
  rw [scoresOf]
  rw [h]
  simp

theorem nodup_keys_bump {s : List (Nat × Nat)} (a : Nat)
    (h : (s.map Prod.fst).Nodup) : ((bump s a).map Prod.fst).Nodup := by
  induction s with
  | nil => simp [bump]
  | cons x t ih =>
    obtain ⟨r, n⟩ := x
    by_cases hr : r = a
    · subst hr
      simpa [bump] using h
    · simp only [List.map_cons, List.nodup_cons] at h
      simp only [bump, if_neg hr, List.map_cons, List.nodup_cons]
      refine ⟨fun hmem => ?_, ih h.2⟩
      rcases (mem_keys_bump t a r).mp hmem with h' | h'
      · exact h.1 h'
      · exact hr h'

theorem nodup_keys_fold (g : List Nat) : ∀ (s : List (Nat × Nat)),
    (s.map Prod.fst).Nodup →
    ((g.foldl (fun s o => if o ≠ 0 then bump s o else s) s).map Prod.fst).Nodup := by
  induction g with
  | nil =>
    intro s h
    simpa using h
  | cons a t ih =>
    intro s h
    rw [List.foldl_cons]
    apply ih
    by_cases ha : a = 0
    · simpa [ha] using h
    · rw [if_pos ha]
      exact nodup_keys_bump a h

theorem nodup_keys_scoresOf (g : List Nat) : ((scoresOf g).map Prod.fst).Nodup :=
  nodup_keys_fold g [] (by simp)

theorem mem_pair_lookupD {s : List (Nat × Nat)} {q : Nat}
    (h : q ∈ s.map Prod.fst) : (q, lookupD s q) ∈ s := by
  induction s with
  | nil => simp at h
  | cons x t ih =>
    obtain ⟨r, n⟩ := x
    by_cases hr : r = q
    · subst hr
      rw [lookupD_cons, if_pos rfl]
      exact List.mem_cons_self _ _
    · rw [lookupD_cons, if_neg hr]
      have hq : q ∈ t.map Prod.fst := by
        simp only [List.map_cons, List.mem_cons] at h
        rcases h with h | h
        · exact absurd h.symm hr
        · exact h
      exact List.mem_cons_of_mem _ (ih hq)

theorem lookupD_of_mem_nodup {s : List (Nat × Nat)} {q n : Nat}
    (hnd : (s.map Prod.fst).Nodup) (h : (q, n) ∈ s) : lookupD s q = n := by
  induction s with
  | nil => simp at h
  | cons x t ih =>
    obtain ⟨r, k⟩ := x
    simp only [List.map_cons, List.nodup_cons] at hnd
    rcases List.mem_cons.mp h with h' | h'
    · rw [Prod.mk.injEq] at h'
      obtain ⟨rfl, rfl⟩ := h'
      rw [lookupD_cons, if_pos rfl]
    · by_cases hr : r = q
      · subst hr
        exact absurd (List.mem_map_of_mem Prod.fst h') hnd.1
      · rw [lookupD_cons, if_neg hr]
        exact ih hnd.2 h'

theorem foldl_max_mem : ∀ (t : List (Nat × Nat)) (x : Nat × Nat),
    t.foldl (fun u y => if y.2 > u.2 then y else u) x ∈ x :: t := by
  intro t
  induction t with
  | nil =>
    intro x
    simp
  | cons y t' ih =>
    intro x
    rw [List.foldl_cons]
    by_cases hc : y.2 > x.2
    · rw [if_pos hc]
      rcases List.mem_cons.mp (ih y) with h' | h'
      · rw [h']
        exact List.mem_cons_of_mem x (List.mem_cons_self y t')
      · exact List.mem_cons_of_mem x (List.mem_cons_of_mem y h')
    · rw [if_neg hc]
      rcases List.mem_cons.mp (ih x) with h' | h'
      · rw [h']
        exact List.mem_cons_self x _
      · exact List.mem_cons_of_mem x (List.mem_cons_of_mem y h')

theorem foldl_max_ge : ∀ (t : List (Nat × Nat)) (x : Nat × Nat) (z : Nat × Nat),
    z ∈ x :: t → z.2 ≤ (t.foldl (fun u y => if y.2 > u.2 then y else u) x).2 := by
  intro t
  induction t with
  | nil =>
    intro x z hz
    rcases List.mem_cons.mp hz with h | h
    · rw [h]
      exact Nat.le_refl _
    · simp at h
  | cons y t' ih =>
    intro x z hz
    rw [List.foldl_cons]
    have hx : x.2 ≤ (if y.2 > x.2 then y else x).2 := by
      by_cases hc : y.2 > x.2
      · rw [if_pos hc]
        omega
      · simp [if_neg hc]
    have hy : y.2 ≤ (if y.2 > x.2 then y else x).2 := by
      by_cases hc : y.2 > x.2
      · simp [if_pos hc]
      · rw [if_neg hc]
        omega
    rcases List.mem_cons.mp hz with h | h
    · subst h
      exact le_trans hx (ih _ _ (List.mem_cons_self _ _))
    · rcases List.mem_cons.mp h with h' | h'
      · subst h'
        exact le_trans hy (ih _ _ (List.mem_cons_self _ _))
      · exact ih _ z (List.mem_cons_of_mem _ h')

theorem maxKey_spec (s : List (Nat × Nat)) (hs : s ≠ [])
    (hnd : (s.map Prod.fst).Nodup) :
    maxKey s ∈ s.map Prod.fst ∧ ∀ z ∈ s, z.2 ≤ lookupD s (maxKey s) := by
  obtain ⟨x, t, rfl⟩ := List.exists_cons_of_ne_nil hs
  have hres := foldl_max_mem t x
  have hmk : maxKey (x :: t) =
      (t.foldl (fun u y => if y.2 > u.2 then y else u) x).1 := rfl
  constructor
  · rw [hmk]
    exact List.mem_map_of_mem Prod.fst hres
  · intro z hz
    have hpair : ((t.foldl (fun u y => if y.2 > u.2 then y else u) x).1,
        (t.foldl (fun u y => if y.2 > u.2 then y else u) x).2) ∈ x :: t := by
      rw [Prod.mk.eta]
      exact hres
    have hlk : lookupD (x :: t) (maxKey (x :: t)) =
        (t.foldl (fun u y => if y.2 > u.2 then y else u) x).2 := by
      rw [hmk]
      exact lookupD_of_mem_nodup hnd hpair
    rw [hlk]
    exact foldl_max_ge t x z hz

/-- C7: when every grid cell has a non-zero owner, `compute_game_over_payload`
reports game over with a winner whose cell count is maximal (equal to the
strict maximum-count player whenever that maximum is unique), and a payload
carrying the winner id, the player count, and the per-player tallies sorted
ascending by player id. -/
theorem claim_game_over_winner_and_payload (grid : List Nat)
    (hlen : grid.length = GRID_N * GRID_N) (hfull : ∀ x ∈ grid, x ≠ 0) :
    (compute_game_over_payload grid).1 = true ∧
    (compute_game_over_payload grid).2 =
      maxKey (scoresOf grid) :: (scoresOf grid).length ::
        (List.insertionSort (fun a c => a ≤ c)
          ((scoresOf grid).map Prod.fst)).flatMap
          (fun q => [q, grid.count q]) ∧
    List.Sorted (fun a c => a ≤ c)
      (List.insertionSort (fun a c => a ≤ c) ((scoresOf grid).map Prod.fst)) ∧
    (∀ q, q ∈ List.insertionSort (fun a c => a ≤ c)
      ((scoresOf grid).map Prod.fst) ↔ q ∈ grid) ∧
    (∀ q ∈ grid, grid.count q ≤ grid.count (maxKey (scoresOf grid))) ∧
    (∀ w ∈ grid, (∀ q ∈ grid, q ≠ w → grid.count q < grid.count w) →
      maxKey (scoresOf grid) = w) := by
  have hnot0 : 0 ∉ grid := fun h => hfull 0 h rfl
  have hne : grid ≠ [] := by
    intro h
    rw [h] at hlen
    simp [GRID_N] at hlen
  have hsne : scoresOf grid ≠ [] := by
    obtain ⟨x, hx⟩ := List.exists_mem_of_ne_nil grid hne
    have hxk : x ∈ (scoresOf grid).map Prod.fst :=
      (mem_keys_scoresOf grid x).mpr ⟨hx, hfull x hx⟩
    intro h
    rw [h] at hxk
    simp at hxk
  have hnd := nodup_keys_scoresOf grid
  have hspec := maxKey_spec (scoresOf grid) hsne hnd
  have hwmem : maxKey (scoresOf grid) ∈ grid :=
    ((mem_keys_scoresOf grid _).mp hspec.1).1
  have hwne0 : maxKey (scoresOf grid) ≠ 0 :=
    ((mem_keys_scoresOf grid _).mp hspec.1).2
  have hcount_le : ∀ q ∈ grid, grid.count q ≤ grid.count (maxKey (scoresOf grid)) := by
    intro q hq
    have hq0 := hfull q hq
    have hqk : q ∈ (scoresOf grid).map Prod.fst :=
      (mem_keys_scoresOf grid q).mpr ⟨hq, hq0⟩
    have hval := hspec.2 _ (mem_pair_lookupD hqk)
    rw [← lookupD_scoresOf grid q hq0, ← lookupD_scoresOf grid _ hwne0]
    exact hval
  refine ⟨?_, ?_, List.sorted_insertionSort _ _, ?_, hcount_le, ?_⟩
  · rw [compute_game_over_payload, if_neg hnot0]
  · rw [compute_game_over_payload, if_neg hnot0]
    show maxKey (scoresOf grid) :: (scoresOf grid).length ::
      (List.insertionSort (fun a c => a ≤ c) ((scoresOf grid).map Prod.fst)).flatMap
        (fun q => [q, lookupD (scoresOf grid) q]) = _
    congr 2
    apply List.flatMap_congr
    intro q hq
    have hq' : q ∈ (scoresOf grid).map Prod.fst :=
      (List.perm_insertionSort _ _).mem_iff.mp hq
    rw [lookupD_scoresOf grid q ((mem_keys_scoresOf grid q).mp hq').2]
  · intro q
    rw [(List.perm_insertionSort _ _).mem_iff, mem_keys_scoresOf]
    exact ⟨fun h => h.1, fun h => ⟨h, hfull q h⟩⟩
  · intro w hw hstrict
    by_contra hne'
    have h1 := hcount_le w hw
    have h2 := hstrict (maxKey (scoresOf grid)) hwmem hne'
    omega

/-- C7 witness. -/
theorem claim_game_over_winner_and_payload_witness :
    (compute_game_over_payload (List.replicate 100 3)).1 = true ∧
    maxKey (scoresOf (List.replicate 100 3)) = 3 :=
  ⟨(claim_game_over_winner_and_payload (List.replicate 100 3) (by decide)
      (by decide)).1,
   (claim_game_over_winner_and_payload (List.replicate 100 3) (by decide)
      (by decide)).2.2.2.2.2 3 (by decide) (by decide)⟩

/-! ## The codec claims -/

/-- C3 counterexample: a valid packet (version 2, SNAPSHOT, timestamp
13276480, 1-byte payload [115]) whose payload-length low byte (offset 23,
value 1) is flipped to 0 is ACCEPTED by decode — with the truncated empty
payload — because the CRC32 of the shortened message collides with the
stored checksum.  So flipping a single byte does not always make decode
report a failure. -/
theorem claim_codec_flip_counterexample :
    (encodePacket 2 0 0 0 13276480 [115]).getD 23 0 = 1 ∧
    decodePacket 2 ((encodePacket 2 0 0 0 13276480 [115]).set 23 0) =
      some (⟨PROTO_ID, 2, 0, 0, 0, 13276480, 0, 1371387860⟩, []) := by
  constructor
  · decide
  · decide

/-- C3 (amended): the encode→decode round trip recovers every header field
and the payload for all in-range inputs; and flipping any single byte of a
valid encoded packet OUTSIDE the two payload-length bytes (offsets 22–23)
makes decode report a tag/version or checksum failure and drop the packet. -/
theorem claim_codec_roundtrip_and_flip_detection :
    (∀ (v mt sid sq ts : Nat) (payload : List Nat),
      v < 256 → mt < 256 → sid < 2 ^ 32 → sq < 2 ^ 32 → ts < 2 ^ 64 →
      payload.length < 2 ^ 16 → (∀ x ∈ payload, x < 256) →
      decodePacket v (encodePacket v mt sid sq ts payload) =
        some (⟨PROTO_ID, v, mt, sid, sq, ts, payload.length,
          crc32 (packHeader ⟨PROTO_ID, v, mt, sid, sq, ts, payload.length, 0⟩ ++
            payload)⟩, payload)) ∧
    (∀ (v mt sid sq ts : Nat) (payload : List Nat) (i b : Nat),
      v < 256 → mt < 256 → sid < 2 ^ 32 → sq < 2 ^ 32 → ts < 2 ^ 64 →
      payload.length < 2 ^ 16 → (∀ x ∈ payload, x < 256) →
      i < 28 + payload.length → (i < 22 ∨ 24 ≤ i) → b < 256 →
      b ≠ (encodePacket v mt sid sq ts payload).getD i 0 →
      decodePacket v ((encodePacket v mt sid sq ts payload).set i b) = none) := by
  constructor
  · exact decode_encode
  · intro v mt sid sq ts payload i b hv hmt hsid hsq hts hpl hpb hi hnot hb hne
    rw [encodePacket_eq_fullPkt] at hne ⊢
    exact decode_flip_core v mt sid sq ts _ payload hv hmt hsid hsq hts hpl hpb
      (crc32_lt (zeroMsg_bytes_lt hpb)) rfl i b hi hnot hb hne

/-- C3 amended-claim witness: round trip on a concrete EVENT-shaped packet,
and rejection of a concrete payload-byte flip. -/
theorem claim_codec_roundtrip_and_flip_detection_witness :
    decodePacket 2 (encodePacket 2 1 0 0 0 [7]) =
      some (⟨PROTO_ID, 2, 1, 0, 0, 0, 1,
        crc32 (packHeader ⟨PROTO_ID, 2, 1, 0, 0, 0, 1, 0⟩ ++ [7])⟩, [7]) ∧
    decodePacket 2 ((encodePacket 2 1 0 0 0 [7]).set 28 9) = none :=
  ⟨claim_codec_roundtrip_and_flip_detection.1 2 1 0 0 0 [7] (by decide) (by decide)
      (by decide) (by decide) (by decide) (by decide) (by decide),
   claim_codec_roundtrip_and_flip_detection.2 2 1 0 0 0 [7] 28 9 (by decide)
      (by decide) (by decide) (by decide) (by decide) (by decide) (by decide)
      (by decide) (Or.inr (by decide)) (by decide) (by decide)⟩

end GridClash
